import Mathlib

/-!
Shallow embedding of the lobsim matching core (src/lobsim/orderbook.py,
src/src/queue.py, src/lobsim/orders.py, src/lobsim/instruments.py).

Modelling conventions:
  * Python floats are modelled as exact rationals; `round(x, p)` is decimal
    rounding half-to-even (the idealisation prescribed by spec section 4.1).
  * Python objects (Order, Queue) live in explicit heaps addressed by
    natural-number ids, so pointer aliasing behaves as in the source;
    `Order.__eq__` compares ids and `Queue.__eq__` compares limits, as in
    the source.  `uuid4` order ids become a fresh-id counter.
  * A raised Python exception is `Except.error (kind, book)` where `book`
    is the object state at the moment of the raise.
  * The unbounded `while` loops of the source take an explicit fuel
    argument; running out of fuel models non-termination.
  * `send_private` notifications are accumulated in a log inside the book
    (the callback is modelled as installed).  Timestamps are dropped: every
    claim below is stated modulo timestamps.
-/

set_option maxRecDepth 4000
set_option allowUnsafeReducibility true
attribute [local semireducible] Rat.mul Rat.add Rat.sub Rat.div Rat.inv Rat.neg

namespace LOB

/-- Banker rounding of a rational to the nearest integer, ties to even:
the rounding of Python's round builtin (spec section 4.1). -/
def roundHalfEven (x : ℚ) : ℤ :=
  let n := ⌊x⌋
  let f := x - (n : ℚ)
  if f < 1/2 then n
  else if 1/2 < f then n + 1
  else if Even n then n else n + 1

/-- Python round(x, prec): decimal rounding half-to-even at prec digits. -/
def roundDec (prec : ℕ) (x : ℚ) : ℚ :=
  (roundHalfEven (x * (10 : ℚ) ^ prec) : ℚ) / (10 : ℚ) ^ prec

/-- utils.is_divisible: exact decimal test that y divides x. -/
def isDivisible (x y : ℚ) : Bool :=
  (y != 0) && ((x / y).den == 1)

/-- x is exactly representable with prec decimal digits. -/
def Exact (prec : ℕ) (x : ℚ) : Prop :=
  ∃ n : ℤ, x * (10 : ℚ) ^ prec = (n : ℚ)

instance (prec : ℕ) (x : ℚ) : Decidable (Exact prec x) :=
  decidable_of_iff ((x * (10 : ℚ) ^ prec).den = 1) <| by
    constructor
    · intro h
      exact ⟨(x * (10 : ℚ) ^ prec).num, ((Rat.den_eq_one_iff _).mp h).symm⟩
    · rintro ⟨n, hn⟩
      rw [hn]; rfl

/-- orders.Side: BID = +1, ASK = -1. -/
inductive Side where
  | BID
  | ASK
deriving DecidableEq, Repr

/-- The signed magnitude of a side. -/
def Side.val : Side → ℤ
  | .BID => 1
  | .ASK => -1

/-- Side.is_bid property. -/
def Side.isBid (s : Side) : Bool := s == Side.BID

/-- Side.__neg__: the opposite side. -/
def Side.opp : Side → Side
  | .BID => .ASK
  | .ASK => .BID

/-- Side.__mul__ and __rmul__: side * x = value * x. -/
def Side.smul (s : Side) (x : ℚ) : ℚ := (s.val : ℚ) * x

/-- instruments.Precision (fields used by the matching core). -/
structure Precision where
  price_precision : ℕ
  quote_precision : ℕ
  quantity_precision : ℕ
deriving DecidableEq, Repr

/-- instruments.Instrument, restricted to the fields the five order
operations read (tick size and rounding precisions; the validation-only
lot/price-bound fields are never consulted by orderbook.py's operations). -/
structure Instrument where
  tick_size : ℚ
  precision : Precision
deriving DecidableEq, Repr

/-- Instrument.adjust_price. -/
def Instrument.adjust_price (i : Instrument) (p : ℚ) : ℚ :=
  roundDec i.precision.price_precision p

/-- Instrument.adjust_quantity. -/
def Instrument.adjust_quantity (i : Instrument) (q : ℚ) : ℚ :=
  roundDec i.precision.quantity_precision q

/-- orders.Order: the mutable order record (timestamps dropped).
`oprev`/`onext` are intrusive ids of queue neighbours, `queue` the id of
the containing queue. -/
structure OrderRec where
  owner : String
  side : Side
  price : ℚ
  quantity : ℚ
  remaining : ℚ
  last_filled_quantity : ℚ
  oprev : Option Nat
  onext : Option Nat
  queue : Option Nat
deriving DecidableEq, Repr

/-- queue.Queue: one price limit on one side (notify callback modelled as
installed; volume_precision is the dataclass default 2, never overridden
by orderbook.py). -/
structure QueueRec where
  limit : ℚ
  side : Side
  volume : ℚ
  nb_orders : ℤ
  qprev : Option Nat
  qnext : Option Nat
  ohead : Option Nat
  otail : Option Nat
  volume_precision : ℕ := 2
deriving DecidableEq, Repr

/-- Recipient of a send_private call: normally a client id string, but
queue.Queue.fill passes fill.order_id as the client_id argument. -/
inductive Recipient where
  | client (c : String)
  | orderKey (oid : Nat)
deriving DecidableEq, Repr

/-- The reason field of a rejection message. -/
inductive Reason where
  | noLiquidity
  | exceedsAvailable (quantity available : ℚ)
deriving DecidableEq, Repr

/-- One send_private notification (message dict contents, minus
timestamps). -/
structure Notif where
  recipient : Recipient
  status : String
  order_id : Option Nat := none
  side : Option Side := none
  quantity : Option ℚ := none
  remaining : Option ℚ := none
  price : Option ℚ := none
  reason : Option Reason := none
deriving DecidableEq, Repr

/-- Python exception kinds the embedded operations can raise. `fuelOut`
models non-termination of a source `while` loop. -/
inductive PyErr where
  | keyError
  | attrError
  | typeError
  | orderbookExn
  | fuelOut
deriving DecidableEq, Repr

/-- Association list with Python-dict semantics (first binding wins on
lookup; keys are unique in well-formed states). -/
def alookup {α β : Type} [DecidableEq α] : List (α × β) → α → Option β
  | [], _ => none
  | (a, b) :: t, x => if x = a then some b else alookup t x

/-- Dict assignment d[k] = v: update in place if present, else append. -/
def aset {α β : Type} [DecidableEq α] : List (α × β) → α → β → List (α × β)
  | [], x, y => [(x, y)]
  | (a, b) :: t, x, y => if x = a then (x, y) :: t else (a, b) :: aset t x y

/-- Dict deletion del d[k] (key assumed present at most once). -/
def aerase {α β : Type} [DecidableEq α] : List (α × β) → α → List (α × β)
  | [], _ => []
  | (a, b) :: t, x => if x = a then t else (a, b) :: aerase t x

/-- Insert a key into a key set (dict assignment where the value is the
keyed object itself, as with order_map[order.order_id] = order). -/
def addKey (l : List Nat) (k : Nat) : List Nat :=
  if l.contains k then l else l.concat k

/-- del on a key set. -/
def delKey (l : List Nat) (k : Nat) : List Nat :=
  l.eraseP (fun x => x == k)

/-- orderbook.Orderbook: the whole mutable state, plus the two object
heaps and the notification log. -/
structure Book where
  instr : Instrument
  max_ask : ℚ
  min_bid : WithTop ℚ
  bq_bid : Option Nat
  bq_ask : Option Nat
  bv_bid : ℚ
  bv_ask : ℚ
  queues : List (ℚ × Nat)
  order_map : List Nat
  orders : List (Nat × OrderRec)
  qheap : List (Nat × QueueRec)
  next_oid : Nat
  next_qid : Nat
  prev_mid : Option ℚ
  curr_mid : Option ℚ
  notifs : List Notif
deriving DecidableEq, Repr

/-- best_queue[side]. -/
def Book.bestQ (b : Book) : Side → Option Nat
  | .BID => b.bq_bid
  | .ASK => b.bq_ask

/-- best_queue[side] = v. -/
def Book.setBestQ (b : Book) : Side → Option Nat → Book
  | .BID, v => { b with bq_bid := v }
  | .ASK, v => { b with bq_ask := v }

/-- best_volumes[side]. -/
def Book.bestVol (b : Book) : Side → ℚ
  | .BID => b.bv_bid
  | .ASK => b.bv_ask

/-- best_volumes[side] = v. -/
def Book.setBestVol (b : Book) : Side → ℚ → Book
  | .BID, v => { b with bv_bid := v }
  | .ASK, v => { b with bv_ask := v }

/-- Dereference an order object (AttributeError stands for any access
through a dangling id, which cannot happen on source-reachable states). -/
def Book.getO (b : Book) (oid : Nat) : Except (PyErr × Book) OrderRec :=
  match alookup b.orders oid with
  | some o => .ok o
  | none => .error (.attrError, b)

/-- Mutate an order object in the heap. -/
def Book.setO (b : Book) (oid : Nat) (o : OrderRec) : Book :=
  { b with orders := aset b.orders oid o }

/-- Dereference a queue object. -/
def Book.getQ (b : Book) (qid : Nat) : Except (PyErr × Book) QueueRec :=
  match alookup b.qheap qid with
  | some q => .ok q
  | none => .error (.attrError, b)

/-- Mutate a queue object in the heap. -/
def Book.setQ (b : Book) (qid : Nat) (q : QueueRec) : Book :=
  { b with qheap := aset b.qheap qid q }

/-- Record one send_private call. -/
def pushNotif (b : Book) (n : Notif) : Book :=
  { b with notifs := b.notifs ++ [n] }

/-- A message dict built from dict(status=...) updated with
Order.infos() (timestamps dropped). -/
def infosNotif (recipient : Recipient) (status : String) (oid : Nat)
    (o : OrderRec) : Notif :=
  { recipient := recipient, status := status, order_id := some oid,
    side := some o.side, quantity := some o.quantity,
    remaining := some o.remaining, price := some o.price }

/-- Queue._rv: round a volume to the queue's volume_precision. -/
def rv (q : QueueRec) (x : ℚ) : ℚ := roundDec q.volume_precision x

/-- queue.Queue.add(order): append at the tail, update volume and count,
set the order's queue back-reference, notify "New order" to the owner.
The source does not reset a re-added order's oprev/onext in the
empty-queue branch; neither do we. -/
def qadd (b : Book) (qid oid : Nat) : Except (PyErr × Book) Book := do
  let q ← b.getQ qid
  let o ← b.getO oid
  let b ← (match q.ohead with
    | none =>
        pure (b.setQ qid { q with ohead := some oid, otail := some oid })
    | some _ => do
        let b := b.setO oid { o with oprev := q.otail, onext := none }
        match q.otail with
        | none => throw (PyErr.attrError, b)
        | some t => do
            let trec ← b.getO t
            let b := b.setO t { trec with onext := some oid }
            pure (b.setQ qid { q with otail := some oid }))
  let q1 ← b.getQ qid
  let b := b.setQ qid
    { q1 with volume := rv q1 (q1.volume + o.quantity),
              nb_orders := q1.nb_orders + 1 }
  let o1 ← b.getO oid
  let b := b.setO oid { o1 with queue := some qid }
  let o2 ← b.getO oid
  pure (pushNotif b (infosNotif (.client o2.owner) "New order" oid o2))

/-- queue.Queue.remove(order): adjust count and volume (filled orders by
last_filled_quantity, live orders by remaining), then unlink the order
from the intrusive chain (sole / tail / head / middle, with Order.__eq__
by id and AttributeError on a None comparison, as in the source).  The
removed order's own pointers and queue reference are left untouched. -/
def qremove (b : Book) (qid oid : Nat) : Except (PyErr × Book) Book := do
  let q ← b.getQ qid
  let o ← b.getO oid
  let q := { q with nb_orders := q.nb_orders - 1,
                    volume := if o.remaining == 0 then
                        rv q (q.volume - o.last_filled_quantity)
                      else rv q (q.volume - o.remaining) }
  let b := b.setQ qid q
  let eqHead ← (match q.ohead with
    | none => throw (PyErr.attrError, b)
    | some h => pure (h == oid) : Except (PyErr × Book) Bool)
  if eqHead then do
    let eqTail ← (match q.otail with
      | none => throw (PyErr.attrError, b)
      | some t => pure (t == oid) : Except (PyErr × Book) Bool)
    if eqTail then
      pure (b.setQ qid { q with ohead := none, otail := none })
    else do
      let b := b.setQ qid { q with ohead := o.onext }
      match o.onext with
      | none => throw (PyErr.attrError, b)
      | some nx => do
          let nxo ← b.getO nx
          pure (b.setO nx { nxo with oprev := none })
  else do
    let eqTail ← (match q.otail with
      | none => throw (PyErr.attrError, b)
      | some t => pure (t == oid) : Except (PyErr × Book) Bool)
    if eqTail then do
      let b := b.setQ qid { q with otail := o.oprev }
      match o.oprev with
      | none => throw (PyErr.attrError, b)
      | some pv => do
          let pvo ← b.getO pv
          pure (b.setO pv { pvo with onext := none })
    else
      match o.onext with
      | none => throw (PyErr.attrError, b)
      | some nx => do
          let nxo ← b.getO nx
          let b := b.setO nx { nxo with oprev := o.oprev }
          match o.oprev with
          | none => throw (PyErr.attrError, b)
          | some pv => do
              let pvo ← b.getO pv
              pure (b.setO pv { pvo with onext := o.onext })

/-- queue.Queue.fill(order, quantity): order.add_fill, a "New Fill"
notification whose client_id argument is fill.order_id (kept as in the
source), then "Filled" or "Partial fill" to the owner, subtracting the
quantity from the queue volume only in the partial case. -/
def qfill (b : Book) (qid oid : Nat) (quantity : ℚ) :
    Except (PyErr × Book) Book := do
  let o ← b.getO oid
  let o := { o with last_filled_quantity := quantity,
                    remaining := roundDec b.instr.precision.quote_precision
                      (o.remaining - quantity) }
  let b := b.setO oid o
  let b := pushNotif b
    { recipient := .orderKey oid, status := "New Fill", price := some o.price }
  if o.remaining == 0 then
    pure (pushNotif b (infosNotif (.client o.owner) "Filled" oid o))
  else do
    let b := pushNotif b (infosNotif (.client o.owner) "Partial fill" oid o)
    let q ← b.getQ qid
    pure (b.setQ qid { q with volume := rv q (q.volume - quantity) })

/-- Orderbook._update_mid, including the TypeError a None prev_mid would
raise in the in-grid comparison. -/
def update_mid (b : Book) : Except (PyErr × Book) Book := do
  match b.bq_ask, b.bq_bid with
  | none, none => pure { b with prev_mid := none, curr_mid := none }
  | none, some bid => do
      let bq ← b.getQ bid
      let m := b.instr.adjust_price (bq.limit + (1/2) * b.instr.tick_size)
      pure { b with curr_mid := some m }
  | some ask, none => do
      let aq ← b.getQ ask
      let m := b.instr.adjust_price (aq.limit - (1/2) * b.instr.tick_size)
      pure { b with curr_mid := some m }
  | some ask, some bid => do
      let aq ← b.getQ ask
      let bq ← b.getQ bid
      let prev := b.curr_mid
      let m := b.instr.adjust_price ((1/2) * (aq.limit + bq.limit))
      let half := (1/2) * b.instr.tick_size
      let m1 ← (if isDivisible m b.instr.tick_size then
          match prev with
          | none =>
              throw (PyErr.typeError,
                { b with prev_mid := prev, curr_mid := some m })
          | some p => pure (if m < p then m + half else m - half)
        else pure m : Except (PyErr × Book) ℚ)
      pure { b with prev_mid := prev,
                    curr_mid := some (b.instr.adjust_price m1) }

/-- The pair (prev_mid, curr_mid) that a successful _update_mid writes,
as a total function of the book (mirrors update_mid branch for branch;
the error paths return values never used under the success
hypotheses). -/
def updateMids (b : Book) : Option ℚ × Option ℚ :=
  match b.bq_ask, b.bq_bid with
  | none, none => (none, none)
  | none, some bid =>
      (b.prev_mid,
        match alookup b.qheap bid with
        | some bq =>
            some (b.instr.adjust_price (bq.limit + (1/2) * b.instr.tick_size))
        | none => none)
  | some ask, none =>
      (b.prev_mid,
        match alookup b.qheap ask with
        | some aq =>
            some (b.instr.adjust_price (aq.limit - (1/2) * b.instr.tick_size))
        | none => none)
  | some ask, some bid =>
      match alookup b.qheap ask, alookup b.qheap bid with
      | some aq, some bq =>
          let prev := b.curr_mid
          let m := b.instr.adjust_price ((1/2) * (aq.limit + bq.limit))
          let half := (1/2) * b.instr.tick_size
          (prev,
            if isDivisible m b.instr.tick_size then
              match prev with
              | none => none
              | some p =>
                  some (b.instr.adjust_price (if m < p then m + half else m - half))
            else some (b.instr.adjust_price m))
      | _, _ => (none, none)

/-- Orderbook._find_prev_queue: probe prices one tick at a time in the
worsening direction until a queue is found; fuel models the unbounded
source loop (none = the loop would not terminate within fuel probes). -/
def find_prev_queue (instr : Instrument) (qs : List (ℚ × Nat))
    (limit : ℚ) (side : Side) : ℕ → Option Nat
  | 0 => none
  | n + 1 =>
      let cur := instr.adjust_price (limit + side.smul instr.tick_size)
      match alookup qs cur with
      | some q => some q
      | none => find_prev_queue instr qs cur side n

/-- Orderbook._create_queue: update the side extremum, allocate the queue
object, splice it into the ladder (new best side / crossing best /
interior via _find_prev_queue) and publish it in queues[price]. -/
def create_queue (b : Book) (side : Side) (price : ℚ) (fuel : ℕ) :
    Except (PyErr × Book) (Nat × Book) := do
  let b := if side.isBid then { b with min_bid := min (↑price) b.min_bid }
           else { b with max_ask := max price b.max_ask }
  let qid := b.next_qid
  let newq : QueueRec :=
    { limit := price, side := side, volume := 0, nb_orders := 0,
      qprev := none, qnext := none, ohead := none, otail := none }
  let b := { b.setQ qid newq with next_qid := qid + 1 }
  match b.bestQ side with
  | none => do
      let b := b.setBestQ side (some qid)
      let b ← update_mid b
      pure (qid, { b with queues := aset b.queues price qid })
  | some best => do
      let bq ← b.getQ best
      if side.smul price > side.smul bq.limit then do
        let b := b.setQ qid { newq with qprev := none, qnext := some best }
        let b := b.setQ best { bq with qprev := some qid }
        let b := b.setBestQ side (some qid)
        let b ← update_mid b
        pure (qid, { b with queues := aset b.queues price qid })
      else
        match find_prev_queue b.instr b.queues price side fuel with
        | none => throw (PyErr.fuelOut, b)
        | some pv => do
            let pvq ← b.getQ pv
            let b := b.setQ qid
              { newq with qprev := some pv, qnext := pvq.qnext }
            let b ← (match pvq.qnext with
              | some nx => do
                  let nxq ← b.getQ nx
                  pure (b.setQ nx { nxq with qprev := some qid })
              | none => pure b)
            let b := b.setQ pv { pvq with qnext := some qid }
            pure (qid, { b with queues := aset b.queues price qid })

/-- First phase of Orderbook._delete_queue: unlink the queue from the
ladder.  Queue.__eq__ compares limits and comparing with a None best
raises, as in the source; the best case advances best_queue and
recomputes the mid. -/
def dq_unlink (b : Book) (side : Side) (qid : Nat) :
    Except (PyErr × Book) Book := do
  let q ← b.getQ qid
  match b.bestQ side with
  | none => throw (PyErr.attrError, b)
  | some bqid => do
      let bq ← b.getQ bqid
      if q.limit = bq.limit then do
        let b := b.setBestQ side q.qnext
        let b ← (match q.qnext with
          | some nx => do
              let nxq ← b.getQ nx
              pure (b.setQ nx { nxq with qprev := none })
          | none => pure b)
        update_mid b
      else
        match q.qprev with
        | none => throw (PyErr.attrError, b)
        | some pv => do
            let pvq ← b.getQ pv
            let b := b.setQ pv { pvq with qnext := q.qnext }
            match q.qnext with
            | some nx => do
                let nxq ← b.getQ nx
                pure (b.setQ nx { nxq with qprev := q.qprev })
            | none => pure b

/-- Second phase of _delete_queue: min_bid maintenance (the queue's
attributes are re-read at use time, as Python does). -/
def dq_min_bid (b : Book) (side : Side) (qid : Nat) :
    Except (PyErr × Book) Book := do
  let q ← b.getQ qid
  if side.isBid ∧ (q.limit : WithTop ℚ) = b.min_bid then
    match q.qprev with
    | none => pure { b with min_bid := ⊤ }
    | some pv => do
        let pvq ← b.getQ pv
        pure { b with min_bid := (pvq.limit : WithTop ℚ) }
  else pure b

/-- Third phase of _delete_queue: max_ask maintenance. -/
def dq_max_ask (b : Book) (side : Side) (qid : Nat) :
    Except (PyErr × Book) Book := do
  let q ← b.getQ qid
  if (!side.isBid) ∧ q.limit = b.max_ask then
    match q.qprev with
    | none => pure { b with max_ask := 0 }
    | some pv => do
        let pvq ← b.getQ pv
        pure { b with max_ask := pvq.limit }
  else pure b

/-- Fourth phase of _delete_queue: del self.queues[queue.limit]
(KeyError when absent). -/
def dq_del_entry (b : Book) (qid : Nat) : Except (PyErr × Book) Book := do
  let q ← b.getQ qid
  match alookup b.queues q.limit with
  | none => throw (PyErr.keyError, b)
  | some _ => pure { b with queues := aerase b.queues q.limit }

/-- Orderbook._delete_queue: unlink from the ladder, maintain the side
extremum, remove the price entry. -/
def delete_queue (b : Book) (side : Side) (qid : Nat) :
    Except (PyErr × Book) Book := do
  let b ← dq_unlink b side qid
  let b ← dq_min_bid b side qid
  let b ← dq_max_ask b side qid
  dq_del_entry b qid

/-- Orderbook._get_order: raise OrderbookException when the id is
unknown. -/
def get_order (b : Book) (oid : Nat) : Except (PyErr × Book) OrderRec :=
  if b.order_map.contains oid then b.getO oid
  else .error (PyErr.orderbookExn, b)

/-- Order construction (fresh id from the counter, remaining = quantity,
no fills, no links). -/
def newOrder (b : Book) (owner : String) (side : Side)
    (quantity price : ℚ) : Nat × Book :=
  let oid := b.next_oid
  let o : OrderRec :=
    { owner := owner, side := side, price := price, quantity := quantity,
      remaining := quantity, last_filled_quantity := 0,
      oprev := none, onext := none, queue := none }
  (oid, { b.setO oid o with next_oid := oid + 1 })

/-- Orderbook._insert_order: register in order_map, look up or create the
queue at the order's price, Queue.add, then add the quantity to
best_volumes[side]. -/
def insert_order (b : Book) (oid : Nat) (fuel : ℕ) :
    Except (PyErr × Book) Book := do
  let o ← b.getO oid
  let b := { b with order_map := addKey b.order_map oid }
  let (qid, b) ← (match alookup b.queues o.price with
    | some q => pure (q, b)
    | none => create_queue b o.side o.price fuel)
  let b ← qadd b qid oid
  pure (b.setBestVol o.side
    (b.instr.adjust_quantity (b.bestVol o.side + o.quantity)))

/-- Orderbook._reject_market: status "rejected", default reason when none
is supplied, plus the kwargs the caller passes. -/
def reject_market (b : Book) (client_id : String) (reason : Option Reason)
    (side : Option Side) (quantity price : Option ℚ) : Book :=
  pushNotif b
    { recipient := .client client_id, status := "rejected",
      side := side, quantity := quantity, price := price,
      reason := some (reason.getD .noLiquidity) }

/-- The while loop of Orderbook.on_marketable, one recursive call per
iteration.  Returns the book and the leftover quantity at loop exit.
The bare subscript self.order_map[order.order_id] of the source (no del)
is kept: it only checks key presence. -/
def marketable_loop (side : Side) (price : ℚ) :
    ℕ → Book → Nat → ℚ → Except (PyErr × Book) (Book × ℚ)
  | 0, b, _, _ => throw (PyErr.fuelOut, b)
  | fuel + 1, b, qid, quantity => do
    let q ← b.getQ qid
    if quantity ≠ 0 ∧ side.smul q.limit ≤ side.smul price then
      match q.ohead with
      | none => throw (PyErr.attrError, b)
      | some oid => do
          let o ← b.getO oid
          let qty := min quantity o.remaining
          let b ← qfill b qid oid qty
          let b := b.setBestVol o.side
            (b.instr.adjust_quantity (b.bestVol o.side - qty))
          let o2 ← b.getO oid
          let b ← (if o2.remaining == 0 then do
              let b ← qremove b qid oid
              if b.order_map.contains oid then pure b
              else throw (PyErr.keyError, b)
            else pure b : Except (PyErr × Book) Book)
          let quantity := b.instr.adjust_quantity (quantity - qty)
          let q2 ← b.getQ qid
          let b ← (if q2.volume == 0 then delete_queue b side.opp qid
            else pure b : Except (PyErr × Book) Book)
          match b.bestQ side.opp with
          | none => pure (b, quantity)
          | some q3 => marketable_loop side price fuel b q3 quantity
    else
      pure (b, quantity)

/-- Orderbook.on_marketable: reject when the opposite side is empty, walk
the opposite best queues, and rest any leftover quantity as a limit order
at the requested price. -/
def on_marketable (b : Book) (side : Side) (quantity price : ℚ)
    (client_id : String) (fuel : ℕ) : Except (PyErr × Book) Book := do
  match b.bestQ side.opp with
  | none =>
      pure (reject_market b client_id none (some side) (some quantity)
        (some price))
  | some qid => do
      let r ← marketable_loop side price fuel b qid quantity
      let b := r.1
      let quantity := r.2
      if quantity ≠ 0 then do
        let (oid, b) := newOrder b client_id side quantity price
        insert_order b oid fuel
      else pure b

/-- Orderbook.on_limit: delegate to on_marketable when the far best
exists and the price crosses or touches it, otherwise rest the order. -/
def on_limit (b : Book) (side : Side) (quantity price : ℚ)
    (client_id : String) (fuel : ℕ) : Except (PyErr × Book) Book := do
  match b.bestQ side.opp with
  | some bqid => do
      let bq ← b.getQ bqid
      if side.smul price ≥ side.smul bq.limit then
        on_marketable b side quantity price client_id fuel
      else do
        let (oid, b) := newOrder b client_id side quantity price
        insert_order b oid fuel
  | none => do
      let (oid, b) := newOrder b client_id side quantity price
      insert_order b oid fuel

/-- The while loop of Orderbook.on_market (here the source really does
del self.order_map[...] on a full fill). -/
def market_loop (side : Side) (quantity : ℚ) (client_id : String) :
    ℕ → Book → ℚ → Except (PyErr × Book) Book
  | 0, b, _ => throw (PyErr.fuelOut, b)
  | fuel + 1, b, remaining =>
    if remaining ≠ 0 then
      match b.bestQ side with
      | none =>
          pure (reject_market b client_id none (some side) (some quantity)
            none)
      | some qid => do
          let q ← b.getQ qid
          match q.ohead with
          | none => throw (PyErr.attrError, b)
          | some oid => do
              let o ← b.getO oid
              let qty := min remaining o.remaining
              let b ← qfill b qid oid qty
              let b := b.setBestVol o.side
                (b.instr.adjust_quantity (b.bestVol o.side - qty))
              let o2 ← b.getO oid
              let b ← (if o2.remaining == 0 then do
                  let b ← qremove b qid oid
                  if b.order_map.contains oid then
                    pure { b with order_map := delKey b.order_map oid }
                  else throw (PyErr.keyError, b)
                else pure b : Except (PyErr × Book) Book)
              let q2 ← b.getQ qid
              let b ← (if q2.volume == 0 then delete_queue b side qid
                else pure b : Except (PyErr × Book) Book)
              market_loop side quantity client_id fuel b
                (b.instr.adjust_quantity (remaining - qty))
    else pure b

/-- Orderbook.on_market: pre-check against best_volumes[side], then walk
the side (the side argument names the liquidity being consumed). -/
def on_market (b : Book) (side : Side) (quantity : ℚ)
    (client_id : String) (fuel : ℕ) : Except (PyErr × Book) Book := do
  let available := b.bestVol side
  if quantity > available then
    pure (reject_market b client_id
      (some (.exceedsAvailable quantity available)) (some side)
      (some quantity) none)
  else
    market_loop side quantity client_id fuel b quantity

/-- Orderbook.on_cancel: look the order up (raising when unknown), build
the "Cancelled" message, remove from the queue, subtract the original
quantity from best_volumes, delete the queue when emptied, del from
order_map, send the message. -/
def on_cancel (b : Book) (oid : Nat) : Except (PyErr × Book) Book := do
  let o ← get_order b oid
  let msg := infosNotif (.client o.owner) "Cancelled" oid o
  match o.queue with
  | none => throw (PyErr.attrError, b)
  | some qid => do
      let b ← qremove b qid oid
      let b := b.setBestVol o.side
        (b.instr.adjust_quantity (b.bestVol o.side - o.quantity))
      let q ← b.getQ qid
      let b ← (if q.volume == 0 then delete_queue b o.side qid
        else pure b : Except (PyErr × Book) Book)
      let b ← (if b.order_map.contains oid then
          pure { b with order_map := delKey b.order_map oid }
        else throw (PyErr.keyError, b) : Except (PyErr × Book) Book)
      pure (pushNotif b msg)

/-- Orderbook.on_amend: remove the order and its quantity, possibly
delete the emptied old queue entry (a raw del, with no ladder or
best-pointer maintenance, as in the source), then either resubmit as
marketable (price crosses the mid) or update the order in place and
attach it to the queue at the new price. -/
def on_amend (b : Book) (oid : Nat) (quantity price : ℚ) (fuel : ℕ) :
    Except (PyErr × Book) Book := do
  let o ← get_order b oid
  let side := o.side
  match o.queue with
  | none => throw (PyErr.attrError, b)
  | some qid => do
      let b ← qremove b qid oid
      let b := b.setBestVol side
        (b.instr.adjust_quantity (b.bestVol side - o.quantity))
      let q ← b.getQ qid
      let b ← (if q.volume == 0 ∧ q.limit ≠ price then
          match alookup b.queues q.limit with
          | none => throw (PyErr.keyError, b)
          | some _ => pure { b with queues := aerase b.queues q.limit }
        else pure b : Except (PyErr × Book) Book)
      match b.curr_mid with
      | none => throw (PyErr.typeError, b)
      | some mid =>
        if side.smul price ≥ side.smul mid then
          on_marketable b side quantity price o.owner fuel
        else do
          let (nqid, b) ← (if q.limit ≠ price then
              match alookup b.queues price with
              | some q2 => pure (q2, b)
              | none => create_queue b side price fuel
            else pure (qid, b) : Except (PyErr × Book) (Nat × Book))
          let o2 ← b.getO oid
          let b := b.setO oid
            { o2 with price := price, quantity := quantity,
                      remaining := quantity }
          let b ← qadd b nqid oid
          let b := b.setBestVol side
            (b.instr.adjust_quantity (b.bestVol side + quantity))
          let o4 ← b.getO oid
          pure (pushNotif b (infosNotif (.client o4.owner) "Amended" oid o4))

/-- A concrete instrument for the scenario runs: integer tick grid with
one decimal digit of rounding precision everywhere, so that half-tick
mids are exactly representable (as with the instruments in the source,
whose precisions exceed the tick's digits). -/
def testInstr : Instrument :=
  { tick_size := 1,
    precision := { price_precision := 1, quote_precision := 1,
                   quantity_precision := 1 } }

/-- A fresh Orderbook over testInstr. -/
def emptyBook : Book :=
  { instr := testInstr, max_ask := 0, min_bid := ⊤,
    bq_bid := none, bq_ask := none, bv_bid := 0, bv_ask := 0,
    queues := [], order_map := [], orders := [], qheap := [],
    next_oid := 0, next_qid := 0, prev_mid := none, curr_mid := none,
    notifs := [] }

/-- List the order ids of a queue chain from ohead along onext. -/
def chainFrom (b : Book) : Option Nat → ℕ → List Nat
  | _, 0 => []
  | none, _ => []
  | some oid, n + 1 =>
      oid :: chainFrom b ((alookup b.orders oid).bind (fun o => o.onext)) n

/-- Two queue heaps agree on the volume, side and limit of every id
(they may disagree on pointers and counters). -/
def heapVS (h1 h2 : List (Nat × QueueRec)) : Prop :=
  ∀ q : Nat,
    (alookup h1 q).map QueueRec.volume = (alookup h2 q).map QueueRec.volume
    ∧ (alookup h1 q).map QueueRec.side = (alookup h2 q).map QueueRec.side
    ∧ (alookup h1 q).map QueueRec.limit = (alookup h2 q).map QueueRec.limit

/-- Sum, over a list of price-index entries, of the volume of the
referenced queue when it lies on side s. -/
def entrySum (l : List (ℚ × Nat)) (heap : List (Nat × QueueRec))
    (s : Side) : ℚ :=
  (l.map (fun pq =>
    match alookup heap pq.2 with
    | some qr => if qr.side = s then qr.volume else 0
    | none => 0)).sum

/-- Sum of Queue.volume over the queues of one side, read through the
queues price index (the spec's right-hand side of invariant 5). -/
def sideVolume (b : Book) (s : Side) : ℚ :=
  entrySum b.queues b.qheap s

/-- The round-trip restoration relation of the limit/cancel algebraic
law: the later book agrees with the earlier one on the price index, the
order index, both best-queue pointers, both best volumes, both side
extrema, and on the full queue record of every queue registered in the
earlier price index (hence on every queue volume and ladder link). -/
def restores (b b2 : Book) : Prop :=
  b2.queues = b.queues
  ∧ b2.order_map = b.order_map
  ∧ b2.bq_bid = b.bq_bid ∧ b2.bq_ask = b.bq_ask
  ∧ b2.bv_bid = b.bv_bid ∧ b2.bv_ask = b.bv_ask
  ∧ b2.min_bid = b.min_bid ∧ b2.max_ask = b.max_ask
  ∧ ∀ p i, alookup b.queues p = some i →
      alookup b2.qheap i = alookup b.qheap i

/-- Scenario: a resting ASK 1@3 is fully consumed by a marketable BID
1@3.  Order 0 (the ask) becomes fully filled during on_marketable. -/
def marketableFullFillRun : Except (PyErr × Book) Book := do
  let b ← on_limit emptyBook .ASK 1 3 "maker" 100
  on_marketable b .BID 1 3 "taker" 100

/-- Scenario: rest BID 2@5, partially fill it with on_market(BID, 1),
then cancel it while one unit is still unfilled. -/
def cancelPartialRun : Except (PyErr × Book) Book := do
  let b ← on_limit emptyBook .BID 2 5 "alice" 100
  let b ← on_market b .BID 1 "bob" 100
  on_cancel b 0

/-- Scenario: BID 1@5 and ASK 1@8 rest (mid 6.5); the ask (order 1) is
amended to price 5, which crosses the mid, so on_amend discards it and
resubmits a marketable order that consumes the bid. -/
def amendMarketableRun : Except (PyErr × Book) Book := do
  let b ← on_limit emptyBook .BID 1 5 "alice" 100
  let b ← on_limit b .ASK 1 8 "bob" 100
  on_amend b 1 1 5 100

/-- Scenario: a direct Queue.fill of one unit against resting BID 2@5
owned by alice (a partial fill, as performed by the matching loops). -/
def fillPartialRun : Except (PyErr × Book) Book := do
  let b ← on_limit emptyBook .BID 2 5 "alice" 100
  qfill b 0 0 1

/-- A one-sided book: a single BID queue at 5 holding order 0.  Used as a
concrete input for the mid-price theorem. -/
def bidOnlyQ : QueueRec :=
  { limit := 5, side := .BID, volume := 1, nb_orders := 1,
    qprev := none, qnext := none, ohead := some 0, otail := some 0 }

/-- Book with only the bid side populated. -/
def bidOnlyBook : Book :=
  { emptyBook with
    bq_bid := some 0, queues := [(5, 0)],
    qheap := [(0, bidOnlyQ)], min_bid := ((5 : ℚ) : WithTop ℚ),
    bv_bid := 1, curr_mid := some (11/2) }

/-- BID queue at 4 for the two-sided mid-price book. -/
def bothQb : QueueRec :=
  { limit := 4, side := .BID, volume := 1, nb_orders := 1,
    qprev := none, qnext := none, ohead := some 0, otail := some 0 }

/-- ASK queue at 8 for the two-sided mid-price book. -/
def bothQa : QueueRec :=
  { limit := 8, side := .ASK, volume := 1, nb_orders := 1,
    qprev := none, qnext := none, ohead := some 1, otail := some 1 }

/-- Two-sided book whose naive mid (6) falls on the tick grid and whose
previous mid is 6.5. -/
def bothBook : Book :=
  { emptyBook with
    bq_bid := some 0, bq_ask := some 1,
    queues := [(4, 0), (8, 1)], qheap := [(0, bothQb), (1, bothQa)],
    min_bid := ((4 : ℚ) : WithTop ℚ), max_ask := 8,
    bv_bid := 1, bv_ask := 1, curr_mid := some (13/2) }

/-- A resting unfilled order for the cancel-volume witness. -/
def cwOrder : OrderRec :=
  { owner := "alice", side := .BID, price := 5, quantity := 2,
    remaining := 2, last_filled_quantity := 0, oprev := none,
    onext := none, queue := some 0 }

/-- Its queue for the cancel-volume witness. -/
def cwQueue : QueueRec :=
  { limit := 5, side := .BID, volume := 2, nb_orders := 1, qprev := none,
    qnext := none, ohead := some 0, otail := some 0 }

/-- Concrete book holding exactly cwOrder, for the cancel-volume
witness. -/
def cancelWB : Book :=
  { emptyBook with
    bq_bid := some 0, queues := [(5, 0)], qheap := [(0, cwQueue)],
    orders := [(0, cwOrder)], order_map := [0], bv_bid := 2,
    min_bid := ((5 : ℚ) : WithTop ℚ), curr_mid := some (11/2) }

/-- The book after cancelling order 0 from cancelWB. -/
def cancelWB1 : Book := ((on_cancel cancelWB 0).toOption).getD emptyBook

/-- cancelWB with its id counters advanced past the live entries, for
the insert-then-cancel witness. -/
def c7WB : Book := { cancelWB with next_oid := 1, next_qid := 1 }

deriving instance DecidableEq for Except

/-!  Theorems.  One theorem per claim of the specification review, plus
shared lemmas and witnesses. -/

/-- Reduction of an Except bind on a success value. -/
theorem bind_ok_eq {ε α β : Type} (a : α) (f : α → Except ε β) :
    (Except.ok a : Except ε α) >>= f = f a := rfl

/-- pure on Except is ok. -/
theorem pure_ok_eq {ε α : Type} (a : α) :
    (pure a : Except ε α) = Except.ok a := rfl

/-- Reduction of an Except bind on an error value. -/
theorem bind_error_eq {ε α β : Type} (e : ε) (f : α → Except ε β) :
    (Except.error e : Except ε α) >>= f = Except.error e := rfl

/-- Associativity of Except bind, used to expose the leftmost effect. -/
theorem bind_assoc_eq {ε α β γ : Type} (x : Except ε α)
    (f : α → Except ε β) (g : β → Except ε γ) :
    (x >>= f) >>= g = x >>= fun a => f a >>= g := by
  cases x <;> rfl

/-- Banker rounding is the identity on integers. -/
theorem roundHalfEven_intCast (n : ℤ) : roundHalfEven (n : ℚ) = n := by
  norm_num [roundHalfEven, Int.floor_intCast]

/-- Decimal rounding is the identity on exactly representable values. -/
theorem roundDec_eq_of_exact (p : ℕ) (x : ℚ) (h : Exact p x) :
    roundDec p x = x := by
  obtain ⟨n, hn⟩ := h
  unfold roundDec
  rw [hn, roundHalfEven_intCast, div_eq_iff (by positivity)]
  exact hn.symm

/-- Decimal rounding fixes zero. -/
theorem roundDec_zero (p : ℕ) : roundDec p 0 = 0 :=
  roundDec_eq_of_exact p 0 ⟨0, by norm_num⟩

/-- Decimal rounding at p digits produces a p-digit exact value. -/
theorem exact_roundDec (p : ℕ) (x : ℚ) : Exact p (roundDec p x) := by
  refine ⟨roundHalfEven (x * 10 ^ p), ?_⟩
  unfold roundDec
  field_simp

/-- Exactness is stable under addition. -/
theorem Exact.add {p : ℕ} {x y : ℚ} (hx : Exact p x) (hy : Exact p y) :
    Exact p (x + y) := by
  obtain ⟨a, ha⟩ := hx
  obtain ⟨b, hb⟩ := hy
  exact ⟨a + b, by rw [add_mul, ha, hb]; push_cast; ring⟩

/-- Exactness is stable under subtraction. -/
theorem Exact.sub {p : ℕ} {x y : ℚ} (hx : Exact p x) (hy : Exact p y) :
    Exact p (x - y) := by
  obtain ⟨a, ha⟩ := hx
  obtain ⟨b, hb⟩ := hy
  exact ⟨a - b, by rw [sub_mul, ha, hb]; push_cast; ring⟩

/-- Exactness is stable under negation. -/
theorem Exact.neg {p : ℕ} {x : ℚ} (hx : Exact p x) : Exact p (-x) := by
  obtain ⟨a, ha⟩ := hx
  exact ⟨-a, by rw [neg_mul, ha]; push_cast; ring⟩

/-- Exactness is stable under the signed-side multiplication. -/
theorem exact_smul (s : Side) {p : ℕ} {t : ℚ} (ht : Exact p t) :
    Exact p (s.smul t) := by
  cases s
  · simpa [Side.smul, Side.val] using ht
  · simpa [Side.smul, Side.val, neg_mul, one_mul] using ht.neg

/-- adjust_price is the identity on values exact at the price
precision. -/
theorem adjust_price_exact (i : Instrument) (x : ℚ)
    (h : Exact i.precision.price_precision x) : i.adjust_price x = x :=
  roundDec_eq_of_exact _ _ h

/-- is_divisible characterised: x is an integer multiple of y. -/
theorem isDivisible_iff (x y : ℚ) (hy : y ≠ 0) :
    isDivisible x y = true ↔ ∃ k : ℤ, x = (k : ℚ) * y := by
  unfold isDivisible
  rw [Bool.and_eq_true, bne_iff_ne, beq_iff_eq]
  constructor
  · rintro ⟨-, hden⟩
    refine ⟨(x / y).num, ?_⟩
    have hxy := (Rat.den_eq_one_iff _).mp hden
    rw [hxy, div_mul_cancel₀ _ hy]
  · rintro ⟨k, rfl⟩
    refine ⟨hy, ?_⟩
    rw [mul_div_cancel_right₀ _ hy]
    rfl

/-- An integer multiple of t shifted by half of t is never an integer
multiple of t. -/
theorem half_shift_ne (k j : ℤ) (t : ℚ) (ht : t ≠ 0) :
    (k : ℚ) * t + (1/2) * t ≠ (j : ℚ) * t := by
  intro h
  have h1 : ((k : ℚ) + 1/2) * t = (j : ℚ) * t := by ring_nf; ring_nf at h; linarith
  have h2 : (k : ℚ) + 1/2 = (j : ℚ) := mul_right_cancel₀ ht h1
  have h3 : (2 * k + 1 : ℚ) = 2 * (j : ℚ) := by linarith
  have h4 : (2 * k + 1 : ℤ) = 2 * j := by exact_mod_cast h3
  omega

/-- Nudging an on-grid value by half a tick in either direction takes it
off the tick grid. -/
theorem isDivisible_half_shift_false (m t : ℚ) (ht : t ≠ 0)
    (h : isDivisible m t = true) :
    isDivisible (m + (1/2) * t) t = false ∧
    isDivisible (m - (1/2) * t) t = false := by
  obtain ⟨k, hk⟩ := (isDivisible_iff m t ht).mp h
  constructor
  · cases hcase : isDivisible (m + (1/2) * t) t with
    | false => rfl
    | true =>
        obtain ⟨j, hj⟩ := (isDivisible_iff _ t ht).mp hcase
        rw [hk] at hj
        exact absurd hj (half_shift_ne k j t ht)
  · cases hcase : isDivisible (m - (1/2) * t) t with
    | false => rfl
    | true =>
        obtain ⟨j, hj⟩ := (isDivisible_iff _ t ht).mp hcase
        rw [hk] at hj
        have hj2 : ((k - 1 : ℤ) : ℚ) * t + (1/2) * t = (j : ℚ) * t := by
          push_cast
          linarith [hj]
        exact absurd hj2 (half_shift_ne (k - 1) j t ht)

/-- Lookup after assignment at the assigned key. -/
theorem alookup_aset_eq {α β : Type} [DecidableEq α]
    (l : List (α × β)) (k : α) (v : β) :
    alookup (aset l k v) k = some v := by
  induction l with
  | nil => simp [aset, alookup]
  | cons hd tl ih =>
      obtain ⟨a, w⟩ := hd
      by_cases hk : k = a
      · subst hk
        simp [aset, alookup]
      · simp [aset, alookup, hk, ih]

/-- Lookup after assignment at a different key. -/
theorem alookup_aset_ne {α β : Type} [DecidableEq α]
    (l : List (α × β)) (k k' : α) (v : β) (h : k' ≠ k) :
    alookup (aset l k v) k' = alookup l k' := by
  induction l with
  | nil => simp [aset, alookup, h]
  | cons hd tl ih =>
      obtain ⟨a, w⟩ := hd
      by_cases hk : k = a
      · subst hk
        simp [aset, alookup, h]
      · by_cases hk2 : k' = a
        · simp [aset, alookup, hk, hk2]
        · simp [aset, alookup, hk, hk2, ih]

/-- A successful lookup yields a member value. -/
theorem alookup_mem {α β : Type} [DecidableEq α]
    (l : List (α × β)) (k : α) (v : β) (h : alookup l k = some v) :
    v ∈ l.map Prod.snd := by
  induction l with
  | nil => simp [alookup] at h
  | cons hd tl ih =>
      obtain ⟨a, w⟩ := hd
      simp only [alookup] at h
      by_cases hk : k = a
      · rw [if_pos hk] at h
        injection h with h2
        subst h2
        simp
      · rw [if_neg hk] at h
        simp [ih h]

/-- update_mid only writes the two mid fields. -/
theorem update_mid_shape (b b1 : Book) (h : update_mid b = .ok b1) :
    ∃ pm cm, b1 = { b with prev_mid := pm, curr_mid := cm } := by
  unfold update_mid Book.getQ at h
  cases hba : b.bq_ask with
  | none =>
      cases hbb : b.bq_bid with
      | none =>
          simp only [hba, hbb, pure_ok_eq] at h
          exact ⟨_, _, ((Except.ok.injEq _ _).mp h).symm⟩
      | some bid =>
          simp only [hba, hbb] at h
          cases hlq : alookup b.qheap bid with
          | none =>
              simp only [hlq, bind_error_eq] at h
              exact Except.noConfusion h
          | some bq =>
              simp only [hlq, bind_ok_eq, pure_ok_eq] at h
              exact ⟨_, _, ((Except.ok.injEq _ _).mp h).symm⟩
  | some ask =>
      cases hbb : b.bq_bid with
      | none =>
          simp only [hba, hbb] at h
          cases hlq : alookup b.qheap ask with
          | none =>
              simp only [hlq, bind_error_eq] at h
              exact Except.noConfusion h
          | some aq =>
              simp only [hlq, bind_ok_eq, pure_ok_eq] at h
              exact ⟨_, _, ((Except.ok.injEq _ _).mp h).symm⟩
      | some bid =>
          simp only [hba, hbb] at h
          cases hla : alookup b.qheap ask with
          | none =>
              simp only [hla, bind_error_eq] at h
              exact Except.noConfusion h
          | some aq =>
              cases hlb : alookup b.qheap bid with
              | none =>
                  simp only [hla, hlb, bind_ok_eq, bind_error_eq] at h
                  exact Except.noConfusion h
              | some bq =>
                  simp only [hla, hlb, bind_ok_eq] at h
                  by_cases hdiv : isDivisible
                      (b.instr.adjust_price
                        ((1/2) * (aq.limit + bq.limit)))
                      b.instr.tick_size = true
                  · rw [if_pos hdiv] at h
                    cases hcm : b.curr_mid with
                    | none =>
                        rw [hcm] at h
                        simp only [bind_error_eq] at h
                        exact Except.noConfusion h
                    | some p =>
                        rw [hcm] at h
                        simp only [bind_ok_eq, pure_ok_eq] at h
                        exact ⟨_, _, ((Except.ok.injEq _ _).mp h).symm⟩
                  · rw [if_neg hdiv] at h
                    simp only [bind_ok_eq, pure_ok_eq] at h
                    exact ⟨_, _, ((Except.ok.injEq _ _).mp h).symm⟩

/-- update_mid succeeds (and only writes the two mid fields) whenever
both best-queue ids resolve in the heap and, when both sides are
present, the current mid is not None. -/
theorem update_mid_ok (b : Book) (r : Except (PyErr × Book) Book)
    (h : update_mid b = r)
    (hae : ∀ i, b.bq_ask = some i → ∃ q, alookup b.qheap i = some q)
    (hbe : ∀ i, b.bq_bid = some i → ∃ q, alookup b.qheap i = some q)
    (hm : b.bq_ask ≠ none → b.bq_bid ≠ none → ∃ m, b.curr_mid = some m) :
    ∃ pm cm, r = .ok { b with prev_mid := pm, curr_mid := cm } := by
  subst h
  unfold update_mid Book.getQ
  cases hba : b.bq_ask with
  | none =>
      cases hbb : b.bq_bid with
      | none => exact ⟨_, _, rfl⟩
      | some bid =>
          obtain ⟨bq, hbq⟩ := hbe bid hbb
          simp only [hbq, bind_ok_eq, pure_ok_eq]
          exact ⟨_, _, rfl⟩
  | some ask =>
      obtain ⟨aq, haq⟩ := hae ask hba
      cases hbb : b.bq_bid with
      | none =>
          simp only [haq, bind_ok_eq, pure_ok_eq]
          exact ⟨_, _, rfl⟩
      | some bid =>
          obtain ⟨bq, hbq⟩ := hbe bid hbb
          obtain ⟨m, hcm⟩ := hm
            (by rw [hba]; exact fun hh => Option.noConfusion hh)
            (by rw [hbb]; exact fun hh => Option.noConfusion hh)
          simp only [haq, hbq, bind_ok_eq, hcm]
          by_cases hdiv : isDivisible
              (b.instr.adjust_price ((1/2) * (aq.limit + bq.limit)))
              b.instr.tick_size = true
          · rw [if_pos hdiv]
            simp only [bind_ok_eq, pure_ok_eq]
            exact ⟨_, _, rfl⟩
          · rw [if_neg hdiv]
            simp only [bind_ok_eq, pure_ok_eq]
            exact ⟨_, _, rfl⟩

/-- Pushing a continuation through a successful update_mid: the book it
receives is the original with the mids replaced by updateMids. -/
theorem update_mid_bind {β : Type} (b : Book)
    (k : Book → Except (PyErr × Book) β) (r : Except (PyErr × Book) β)
    (hae : ∀ i, b.bq_ask = some i → ∃ q, alookup b.qheap i = some q)
    (hbe : ∀ i, b.bq_bid = some i → ∃ q, alookup b.qheap i = some q)
    (hm : b.bq_ask ≠ none → b.bq_bid ≠ none → ∃ m, b.curr_mid = some m)
    (h : k { b with prev_mid := (updateMids b).1,
                    curr_mid := (updateMids b).2 } = r) :
    (update_mid b >>= k) = r := by
  unfold update_mid Book.getQ
  cases hba : b.bq_ask with
  | none =>
      cases hbb : b.bq_bid with
      | none =>
          simp only [updateMids, hba, hbb] at h
          simp only [pure_ok_eq, bind_ok_eq]
          exact h
      | some bid =>
          obtain ⟨bq, hbq⟩ := hbe bid hbb
          simp only [updateMids, hba, hbb, hbq] at h
          simp only [hbq, bind_ok_eq, pure_ok_eq]
          exact h
  | some ask =>
      obtain ⟨aq, haq⟩ := hae ask hba
      cases hbb : b.bq_bid with
      | none =>
          simp only [updateMids, hba, hbb, haq] at h
          simp only [haq, bind_ok_eq, pure_ok_eq]
          exact h
      | some bid =>
          obtain ⟨bq, hbq⟩ := hbe bid hbb
          obtain ⟨m, hcm⟩ := hm
            (by rw [hba]; exact fun hh => Option.noConfusion hh)
            (by rw [hbb]; exact fun hh => Option.noConfusion hh)
          simp only [updateMids, hba, hbb, haq, hbq, hcm] at h
          simp only [haq, hbq, bind_ok_eq, hcm]
          by_cases hdiv : isDivisible
              (b.instr.adjust_price ((1/2) * (aq.limit + bq.limit)))
              b.instr.tick_size = true
          · rw [if_pos hdiv]
            rw [if_pos hdiv] at h
            simp only [bind_ok_eq, pure_ok_eq]
            exact h
          · rw [if_neg hdiv]
            rw [if_neg hdiv] at h
            simp only [bind_ok_eq, pure_ok_eq]
            exact h

/-- With both sides present, resolvable best queues and a non-None
current mid, updateMids publishes a non-None mid. -/
theorem updateMids_snd_some (b : Book) (a i : Nat) (aq bq : QueueRec)
    (ha : b.bq_ask = some a) (hb : b.bq_bid = some i)
    (haq : alookup b.qheap a = some aq)
    (hbq : alookup b.qheap i = some bq)
    (m : ℚ) (hm : b.curr_mid = some m) :
    ∃ m', (updateMids b).2 = some m' := by
  unfold updateMids
  simp only [ha, hb, haq, hbq, hm]
  by_cases hdiv : isDivisible
      (b.instr.adjust_price ((1/2) * (aq.limit + bq.limit)))
      b.instr.tick_size = true
  · rw [if_pos hdiv]
    exact ⟨_, rfl⟩
  · rw [if_neg hdiv]
    exact ⟨_, rfl⟩

/-- Pushing a continuation through the min_bid phase of _delete_queue
when the deleted queue has a ladder predecessor. -/
theorem dq_min_bid_bind {β : Type} (b : Book) (side : Side)
    (qid pv : Nat) (q pvq : QueueRec)
    (k : Book → Except (PyErr × Book) β)
    (r : Except (PyErr × Book) β)
    (hq : alookup b.qheap qid = some q)
    (hqp : q.qprev = some pv)
    (hpvq : alookup b.qheap pv = some pvq)
    (h : k { b with min_bid :=
        if side.isBid = true ∧ (q.limit : WithTop ℚ) = b.min_bid
        then (pvq.limit : WithTop ℚ) else b.min_bid } = r) :
    (dq_min_bid b side qid >>= k) = r := by
  unfold dq_min_bid Book.getQ
  simp only [hq, bind_ok_eq]
  by_cases hc : side.isBid = true ∧ (q.limit : WithTop ℚ) = b.min_bid
  · rw [if_pos hc] at h ⊢
    simp only [hqp, hpvq, bind_ok_eq, pure_ok_eq]
    exact h
  · rw [if_neg hc] at h ⊢
    simp only [pure_ok_eq]
    exact h

/-- Pushing a continuation through the max_ask phase of _delete_queue
when the deleted queue has a ladder predecessor. -/
theorem dq_max_ask_bind {β : Type} (b : Book) (side : Side)
    (qid pv : Nat) (q pvq : QueueRec)
    (k : Book → Except (PyErr × Book) β)
    (r : Except (PyErr × Book) β)
    (hq : alookup b.qheap qid = some q)
    (hqp : q.qprev = some pv)
    (hpvq : alookup b.qheap pv = some pvq)
    (h : k { b with max_ask :=
        if (!side.isBid) = true ∧ q.limit = b.max_ask
        then pvq.limit else b.max_ask } = r) :
    (dq_max_ask b side qid >>= k) = r := by
  unfold dq_max_ask Book.getQ
  simp only [hq, bind_ok_eq]
  by_cases hc : (!side.isBid) = true ∧ q.limit = b.max_ask
  · rw [if_pos hc] at h ⊢
    simp only [hqp, hpvq, bind_ok_eq, pure_ok_eq]
    exact h
  · rw [if_neg hc] at h ⊢
    simp only [pure_ok_eq]
    exact h

/-- Pushing a continuation through the ladder-unlink phase of
_delete_queue when the queue is not the best of its side and has no
ladder successor: only the predecessor's qnext pointer is written. -/
theorem dq_unlink_nb_none {β : Type} (b : Book) (side : Side)
    (qid bqid pv : Nat) (q pvrec : QueueRec)
    (k : Book → Except (PyErr × Book) β)
    (r : Except (PyErr × Book) β)
    (hq : alookup b.qheap qid = some q)
    (hb : b.bestQ side = some bqid)
    (hbrec : ∃ brec, alookup b.qheap bqid = some brec
      ∧ q.limit ≠ brec.limit)
    (hqp : q.qprev = some pv)
    (hqn : q.qnext = none)
    (hpvrec : alookup b.qheap pv = some pvrec)
    (h : k (b.setQ pv { pvrec with qnext := none }) = r) :
    (dq_unlink b side qid >>= k) = r := by
  obtain ⟨brec, hbl, hblne⟩ := hbrec
  unfold dq_unlink Book.getQ
  simp only [hq, bind_ok_eq, hb, hbl]
  rw [if_neg hblne]
  simp only [hqp, hpvrec, hqn, bind_ok_eq, pure_ok_eq]
  exact h

/-- Pushing a continuation through the ladder-unlink phase of
_delete_queue when the queue is not the best of its side and has a
ladder successor: the predecessor and successor are relinked to each
other. -/
theorem dq_unlink_nb_some {β : Type} (b : Book) (side : Side)
    (qid bqid pv nx : Nat) (q pvrec nxrec : QueueRec)
    (k : Book → Except (PyErr × Book) β)
    (r : Except (PyErr × Book) β)
    (hq : alookup b.qheap qid = some q)
    (hb : b.bestQ side = some bqid)
    (hbrec : ∃ brec, alookup b.qheap bqid = some brec
      ∧ q.limit ≠ brec.limit)
    (hqp : q.qprev = some pv)
    (hqn : q.qnext = some nx)
    (hnxpv : nx ≠ pv)
    (hnxrec : alookup b.qheap nx = some nxrec)
    (hpvrec : alookup b.qheap pv = some pvrec)
    (h : k ((b.setQ pv { pvrec with qnext := some nx }).setQ nx
        { nxrec with qprev := some pv }) = r) :
    (dq_unlink b side qid >>= k) = r := by
  obtain ⟨brec, hbl, hblne⟩ := hbrec
  unfold dq_unlink Book.getQ Book.setQ
  simp only [hq, bind_ok_eq, hb, hbl]
  rw [if_neg hblne]
  simp only [hqp, hpvrec, hqn, bind_ok_eq, pure_ok_eq,
    alookup_aset_ne _ _ _ _ hnxpv, hnxrec]
  exact h

/-- setBestQ leaves the queue heap unchanged. -/
theorem setBestQ_qheap (b : Book) (s : Side) (v : Option Nat) :
    (b.setBestQ s v).qheap = b.qheap := by cases s <;> rfl

/-- setBestQ leaves the price index unchanged. -/
theorem setBestQ_queues (b : Book) (s : Side) (v : Option Nat) :
    (b.setBestQ s v).queues = b.queues := by cases s <;> rfl

/-- setBestQ leaves the order heap unchanged. -/
theorem setBestQ_orders (b : Book) (s : Side) (v : Option Nat) :
    (b.setBestQ s v).orders = b.orders := by cases s <;> rfl

/-- setBestQ leaves order_map unchanged. -/
theorem setBestQ_order_map (b : Book) (s : Side) (v : Option Nat) :
    (b.setBestQ s v).order_map = b.order_map := by cases s <;> rfl

/-- setBestQ leaves the notification log unchanged. -/
theorem setBestQ_notifs (b : Book) (s : Side) (v : Option Nat) :
    (b.setBestQ s v).notifs = b.notifs := by cases s <;> rfl

/-- setBestQ leaves both best volumes unchanged. -/
theorem setBestQ_bv (b : Book) (s : Side) (v : Option Nat) :
    (b.setBestQ s v).bv_bid = b.bv_bid
    ∧ (b.setBestQ s v).bv_ask = b.bv_ask := by cases s <;> exact ⟨rfl, rfl⟩

/-- setBestQ leaves min_bid and max_ask unchanged. -/
theorem setBestQ_minmax (b : Book) (s : Side) (v : Option Nat) :
    (b.setBestQ s v).min_bid = b.min_bid
    ∧ (b.setBestQ s v).max_ask = b.max_ask := by cases s <;> exact ⟨rfl, rfl⟩

/-- setBestQ leaves the instrument and id counters unchanged. -/
theorem setBestQ_misc (b : Book) (s : Side) (v : Option Nat) :
    (b.setBestQ s v).instr = b.instr
    ∧ (b.setBestQ s v).next_oid = b.next_oid
    ∧ (b.setBestQ s v).next_qid = b.next_qid := by
  cases s <;> exact ⟨rfl, rfl, rfl⟩

/-- setBestVol changes nothing but the two volume fields. -/
theorem setBestVol_fields (b : Book) (s : Side) (v : ℚ) :
    (b.setBestVol s v).instr = b.instr
    ∧ (b.setBestVol s v).queues = b.queues
    ∧ (b.setBestVol s v).qheap = b.qheap
    ∧ (b.setBestVol s v).orders = b.orders
    ∧ (b.setBestVol s v).order_map = b.order_map
    ∧ (b.setBestVol s v).notifs = b.notifs
    ∧ (b.setBestVol s v).bq_bid = b.bq_bid
    ∧ (b.setBestVol s v).bq_ask = b.bq_ask
    ∧ (b.setBestVol s v).min_bid = b.min_bid
    ∧ (b.setBestVol s v).max_ask = b.max_ask
    ∧ (b.setBestVol s v).next_oid = b.next_oid
    ∧ (b.setBestVol s v).next_qid = b.next_qid
    ∧ (b.setBestVol s v).prev_mid = b.prev_mid
    ∧ (b.setBestVol s v).curr_mid = b.curr_mid := by
  cases s <;> exact ⟨rfl, rfl, rfl, rfl, rfl, rfl, rfl, rfl, rfl, rfl, rfl,
    rfl, rfl, rfl⟩

/-- Reading back the volume just written by setBestVol. -/
theorem bestVol_setBestVol_self (b : Book) (s : Side) (v : ℚ) :
    (b.setBestVol s v).bestVol s = v := by cases s <;> rfl

/-- setBestVol does not touch the opposite side's volume. -/
theorem bestVol_setBestVol_opp (b : Book) (s : Side) (v : ℚ) :
    (b.setBestVol s v).bestVol s.opp = b.bestVol s.opp := by
  cases s <;> rfl

/-- bestVol in terms of the two fields. -/
theorem bestVol_eq (b : Book) :
    b.bestVol .BID = b.bv_bid ∧ b.bestVol .ASK = b.bv_ask := ⟨rfl, rfl⟩

/-- heapVS is reflexive. -/
theorem heapVS_refl (h : List (Nat × QueueRec)) : heapVS h h :=
  fun _ => ⟨rfl, rfl, rfl⟩

/-- heapVS is transitive. -/
theorem heapVS_trans {h1 h2 h3 : List (Nat × QueueRec)}
    (a : heapVS h1 h2) (c : heapVS h2 h3) : heapVS h1 h3 :=
  fun q => ⟨(a q).1.trans (c q).1, (a q).2.1.trans (c q).2.1,
    (a q).2.2.trans (c q).2.2⟩

/-- Overwriting a heap entry with a record of equal volume, side and
limit preserves heapVS. -/
theorem heapVS_aset (heap : List (Nat × QueueRec)) (k : Nat)
    (v v' : QueueRec) (hv : alookup heap k = some v)
    (hvol : v'.volume = v.volume) (hside : v'.side = v.side)
    (hlim : v'.limit = v.limit) :
    heapVS (aset heap k v') heap := by
  intro q
  by_cases hq : q = k
  · subst hq
    rw [alookup_aset_eq, hv]
    simp [hvol, hside, hlim]
  · rw [alookup_aset_ne _ _ _ _ hq]
    exact ⟨rfl, rfl, rfl⟩

/-- A heapVS-preserved heap still resolves a known id, with the same
volume, side and limit. -/
theorem heapVS_lookup {h1 h2 : List (Nat × QueueRec)} (h : heapVS h1 h2)
    (k : Nat) (v : QueueRec) (hv : alookup h2 k = some v) :
    ∃ v1, alookup h1 k = some v1 ∧ v1.volume = v.volume
      ∧ v1.side = v.side ∧ v1.limit = v.limit := by
  obtain ⟨hvol, hside, hlim⟩ := h k
  rw [hv] at hvol hside hlim
  cases ha : alookup h1 k with
  | none =>
      rw [ha] at hvol
      exact Option.noConfusion hvol
  | some v1 =>
      rw [ha] at hvol hside hlim
      injection hvol with hvol
      injection hside with hside
      injection hlim with hlim
      exact ⟨v1, rfl, hvol, hside, hlim⟩

/-- Unfolding entrySum over a cons cell. -/
theorem entrySum_cons (p0 : ℚ) (i0 : Nat) (l : List (ℚ × Nat))
    (heap : List (Nat × QueueRec)) (s : Side) :
    entrySum ((p0, i0) :: l) heap s
      = (match alookup heap i0 with
          | some qr => if qr.side = s then qr.volume else 0
          | none => 0)
        + entrySum l heap s := rfl

/-- entrySum only depends on the volume and side of the heap records. -/
theorem entrySum_congr (l : List (ℚ × Nat))
    (h1 h2 : List (Nat × QueueRec)) (s : Side) (h : heapVS h1 h2) :
    entrySum l h1 s = entrySum l h2 s := by
  induction l with
  | nil => rfl
  | cons hd tl ih =>
      obtain ⟨p0, i0⟩ := hd
      rw [entrySum_cons, entrySum_cons, ih]
      congr 1
      obtain ⟨hvol, hside, -⟩ := h i0
      cases ha : alookup h1 i0 with
      | none =>
          rw [ha] at hvol
          cases hb : alookup h2 i0 with
          | none => rfl
          | some w => rw [hb] at hvol; exact Option.noConfusion hvol
      | some w =>
          rw [ha] at hvol hside
          cases hb : alookup h2 i0 with
          | none => rw [hb] at hvol; exact Option.noConfusion hvol
          | some w2 =>
              rw [hb] at hvol hside
              injection hvol with hvol
              injection hside with hside
              show (if w.side = s then w.volume else 0)
                = (if w2.side = s then w2.volume else 0)
              rw [hvol, hside]

/-- Overwriting the record of an id absent from the entry list does not
change the side sum. -/
theorem entrySum_aset_not_mem (l : List (ℚ × Nat))
    (heap : List (Nat × QueueRec)) (qid : Nat) (qr1 : QueueRec) (s : Side)
    (h : ¬ qid ∈ l.map Prod.snd) :
    entrySum l (aset heap qid qr1) s = entrySum l heap s := by
  induction l with
  | nil => rfl
  | cons hd tl ih =>
      obtain ⟨p0, i0⟩ := hd
      simp only [List.map_cons, List.mem_cons, not_or] at h
      rw [entrySum_cons, entrySum_cons,
        alookup_aset_ne _ _ _ _ (fun hh => h.1 hh.symm), ih h.2]

/-- Overwriting the record of an id listed exactly once shifts the side
sum by the volume difference (on that record's side). -/
theorem entrySum_aset_delta (l : List (ℚ × Nat))
    (heap : List (Nat × QueueRec)) (qid : Nat) (qr qr1 : QueueRec)
    (s : Side) (hheap : alookup heap qid = some qr)
    (hside : qr1.side = qr.side) (hmem : qid ∈ l.map Prod.snd)
    (hnodup : (l.map Prod.snd).Nodup) :
    entrySum l (aset heap qid qr1) s
      = entrySum l heap s
        + (if qr.side = s then qr1.volume - qr.volume else 0) := by
  induction l with
  | nil => simp at hmem
  | cons hd tl ih =>
      obtain ⟨p0, i0⟩ := hd
      simp only [List.map_cons, List.nodup_cons] at hnodup
      rw [entrySum_cons, entrySum_cons]
      by_cases hi : i0 = qid
      · subst hi
        rw [alookup_aset_eq, hheap,
          entrySum_aset_not_mem tl heap i0 qr1 s hnodup.1]
        show (if qr1.side = s then qr1.volume else 0) + entrySum tl heap s
          = (if qr.side = s then qr.volume else 0) + entrySum tl heap s
            + (if qr.side = s then qr1.volume - qr.volume else 0)
        rw [hside]
        by_cases hs : qr.side = s
        · rw [if_pos hs, if_pos hs, if_pos hs]
          ring
        · rw [if_neg hs, if_neg hs, if_neg hs]
          ring
      · simp only [List.map_cons, List.mem_cons] at hmem
        rcases hmem with hmem | hmem
        · exact absurd hmem.symm hi
        · rw [alookup_aset_ne _ _ _ _ hi, ih hmem hnodup.2]
          ring

/-- Erasing the entry of a queue removes exactly its contribution from
the side sum (keys assumed unique). -/
theorem entrySum_aerase (l : List (ℚ × Nat))
    (heap : List (Nat × QueueRec)) (p : ℚ) (qid : Nat) (qr : QueueRec)
    (s : Side) (hl : alookup l p = some qid)
    (hkeys : (l.map Prod.fst).Nodup)
    (hheap : alookup heap qid = some qr) :
    entrySum (aerase l p) heap s
      = entrySum l heap s - (if qr.side = s then qr.volume else 0) := by
  induction l with
  | nil => simp [alookup] at hl
  | cons hd tl ih =>
      obtain ⟨p0, i0⟩ := hd
      simp only [List.map_cons, List.nodup_cons] at hkeys
      simp only [alookup] at hl
      by_cases hp : p = p0
      · rw [if_pos hp] at hl
        injection hl with hl
        subst hl
        show entrySum (if p = p0 then tl else (p0, i0) :: aerase tl p) heap s
          = _
        rw [if_pos hp, entrySum_cons, hheap]
        show entrySum tl heap s
          = (if qr.side = s then qr.volume else 0) + entrySum tl heap s
            - (if qr.side = s then qr.volume else 0)
        ring
      · rw [if_neg hp] at hl
        show entrySum (if p = p0 then tl else (p0, i0) :: aerase tl p) heap s
          = _
        rw [if_neg hp, entrySum_cons, entrySum_cons, ih hl hkeys.2]
        ring

/-- A side differs from its opposite. -/
theorem Side.opp_ne (s : Side) : s.opp ≠ s := by cases s <;> simp [Side.opp]

/-- Signed-price comparison is injective on prices. -/
theorem Side.smul_inj (s : Side) {x y : ℚ} (h : s.smul x = s.smul y) :
    x = y := by
  cases s <;>
    (simp only [Side.smul, Side.val] at h; push_cast at h; linarith)

/-- The bid side answers isBid. -/
theorem Side.isBid_BID : Side.BID.isBid = true := rfl

/-- The ask side does not answer isBid. -/
theorem Side.isBid_ASK : Side.ASK.isBid = false := rfl

/-- Two heaps that differ only at one id (where volumes differ but sides
agree) have side sums differing by the volume difference. -/
theorem entrySum_pointwise_delta (l : List (ℚ × Nat))
    (h1 h2 : List (Nat × QueueRec)) (qid : Nat) (qr qr1 : QueueRec)
    (s : Side) (hq2 : alookup h2 qid = some qr)
    (hq1 : alookup h1 qid = some qr1) (hside : qr1.side = qr.side)
    (hother : ∀ q', q' ≠ qid → alookup h1 q' = alookup h2 q')
    (hmem : qid ∈ l.map Prod.snd) (hnodup : (l.map Prod.snd).Nodup) :
    entrySum l h1 s
      = entrySum l h2 s
        + (if qr.side = s then qr1.volume - qr.volume else 0) := by
  induction l with
  | nil => simp at hmem
  | cons hd tl ih =>
      obtain ⟨p0, i0⟩ := hd
      simp only [List.map_cons, List.nodup_cons] at hnodup
      rw [entrySum_cons, entrySum_cons]
      by_cases hi : i0 = qid
      · subst hi
        rw [hq1, hq2]
        have htl : entrySum tl h1 s = entrySum tl h2 s := by
          clear ih hmem
          induction tl with
          | nil => rfl
          | cons hd2 tl2 ih2 =>
              obtain ⟨p2, i2⟩ := hd2
              simp only [List.map_cons, List.mem_cons, not_or,
                List.nodup_cons] at hnodup
              rw [entrySum_cons, entrySum_cons,
                hother i2 (fun hh => hnodup.1.1 hh.symm),
                ih2 ⟨hnodup.1.2, hnodup.2.2⟩]
        rw [htl]
        show (if qr1.side = s then qr1.volume else 0) + entrySum tl h2 s
          = (if qr.side = s then qr.volume else 0) + entrySum tl h2 s
            + (if qr.side = s then qr1.volume - qr.volume else 0)
        rw [hside]
        by_cases hs : qr.side = s
        · rw [if_pos hs, if_pos hs, if_pos hs]
          ring
        · rw [if_neg hs, if_neg hs, if_neg hs]
          ring
      · simp only [List.map_cons, List.mem_cons] at hmem
        rcases hmem with hmem | hmem
        · exact absurd hmem.symm hi
        · rw [hother i0 hi, ih hmem hnodup.2]
          ring

/-- Queue.remove seen from the book: it only touches the order heap and
the removed order's queue record, whose volume drops by
last_filled_quantity (filled order) or remaining (live order), rounded,
and whose side, limit and precision are unchanged. -/
theorem qremove_spec (b b1 : Book) (qid oid : Nat) (o : OrderRec)
    (qr : QueueRec)
    (hq : alookup b.qheap qid = some qr)
    (ho : alookup b.orders oid = some o)
    (h : qremove b qid oid = .ok b1) :
    b1.instr = b.instr ∧ b1.queues = b.queues ∧
    b1.order_map = b.order_map ∧ b1.notifs = b.notifs ∧
    b1.bv_bid = b.bv_bid ∧ b1.bv_ask = b.bv_ask ∧
    b1.bq_bid = b.bq_bid ∧ b1.bq_ask = b.bq_ask ∧
    b1.min_bid = b.min_bid ∧ b1.max_ask = b.max_ask ∧
    b1.next_oid = b.next_oid ∧ b1.next_qid = b.next_qid ∧
    (∀ q', q' ≠ qid → alookup b1.qheap q' = alookup b.qheap q') ∧
    ∃ qr1, alookup b1.qheap qid = some qr1 ∧
      qr1.side = qr.side ∧ qr1.limit = qr.limit ∧
      qr1.volume_precision = qr.volume_precision ∧
      qr1.nb_orders = qr.nb_orders - 1 ∧
      qr1.volume = (if o.remaining == 0 then
          rv qr (qr.volume - o.last_filled_quantity)
        else rv qr (qr.volume - o.remaining)) := by
  unfold qremove Book.getQ Book.getO Book.setQ Book.setO at h
  simp only [hq, ho, bind_ok_eq] at h
  cases hoh : qr.ohead with
  | none =>
      simp only [hoh, bind_error_eq] at h
      exact Except.noConfusion h
  | some hd =>
      simp only [hoh, pure_ok_eq, bind_ok_eq] at h
      by_cases hhd : (hd == oid) = true
      · rw [if_pos hhd] at h
        cases hot : qr.otail with
        | none =>
            simp only [hot, bind_error_eq] at h
            exact Except.noConfusion h
        | some t =>
            simp only [hot, pure_ok_eq, bind_ok_eq] at h
            by_cases htl : (t == oid) = true
            · rw [if_pos htl] at h
              replace h := ((Except.ok.injEq _ _).mp h)
              subst h
              refine ⟨rfl, rfl, rfl, rfl, rfl, rfl, rfl, rfl, rfl, rfl,
                rfl, rfl, ?_, ?_⟩
              · intro q' hq'
                exact (alookup_aset_ne _ _ _ _ hq').trans
                  (alookup_aset_ne _ _ _ _ hq')
              · exact ⟨_, alookup_aset_eq _ _ _, rfl, rfl, rfl, rfl, rfl⟩
            · rw [if_neg htl] at h
              cases hnx : o.onext with
              | none =>
                  simp only [hnx, bind_error_eq] at h
                  exact Except.noConfusion h
              | some nx =>
                  simp only [hnx] at h
                  cases hnxo : alookup b.orders nx with
                  | none =>
                      simp only [hnxo, bind_error_eq] at h
                      exact Except.noConfusion h
                  | some nxo =>
                      simp only [hnxo, bind_ok_eq, pure_ok_eq] at h
                      replace h := ((Except.ok.injEq _ _).mp h)
                      subst h
                      refine ⟨rfl, rfl, rfl, rfl, rfl, rfl, rfl, rfl, rfl,
                        rfl, rfl, rfl, ?_, ?_⟩
                      · intro q' hq'
                        exact (alookup_aset_ne _ _ _ _ hq').trans
                          (alookup_aset_ne _ _ _ _ hq')
                      · exact ⟨_, alookup_aset_eq _ _ _, rfl, rfl, rfl,
                          rfl, rfl⟩
      · rw [if_neg hhd] at h
        cases hot : qr.otail with
        | none =>
            simp only [hot, bind_error_eq] at h
            exact Except.noConfusion h
        | some t =>
            simp only [hot, pure_ok_eq, bind_ok_eq] at h
            by_cases htl : (t == oid) = true
            · rw [if_pos htl] at h
              cases hpv : o.oprev with
              | none =>
                  simp only [hpv, bind_error_eq] at h
                  exact Except.noConfusion h
              | some pv =>
                  simp only [hpv] at h
                  cases hpvo : alookup b.orders pv with
                  | none =>
                      simp only [hpvo, bind_error_eq] at h
                      exact Except.noConfusion h
                  | some pvo =>
                      simp only [hpvo, bind_ok_eq, pure_ok_eq] at h
                      replace h := ((Except.ok.injEq _ _).mp h)
                      subst h
                      refine ⟨rfl, rfl, rfl, rfl, rfl, rfl, rfl, rfl, rfl,
                        rfl, rfl, rfl, ?_, ?_⟩
                      · intro q' hq'
                        exact (alookup_aset_ne _ _ _ _ hq').trans
                          (alookup_aset_ne _ _ _ _ hq')
                      · exact ⟨_, alookup_aset_eq _ _ _, rfl, rfl, rfl,
                          rfl, rfl⟩
            · rw [if_neg htl] at h
              cases hnx : o.onext with
              | none =>
                  simp only [hnx, bind_error_eq] at h
                  exact Except.noConfusion h
              | some nx =>
                  simp only [hnx] at h
                  cases hnxo : alookup b.orders nx with
                  | none =>
                      simp only [hnxo, bind_error_eq] at h
                      exact Except.noConfusion h
                  | some nxo =>
                      simp only [hnxo, bind_ok_eq] at h
                      cases hpv : o.oprev with
                      | none =>
                          simp only [hpv, bind_error_eq] at h
                          exact Except.noConfusion h
                      | some pv =>
                          simp only [hpv] at h
                          cases hpvo : alookup
                              (aset b.orders nx
                                { nxo with oprev := some pv }) pv with
                          | none =>
                              simp only [hpv, hpvo, bind_error_eq] at h
                              exact Except.noConfusion h
                          | some pvo =>
                              simp only [hpv, hpvo, bind_ok_eq,
                                pure_ok_eq] at h
                              replace h := ((Except.ok.injEq _ _).mp h)
                              subst h
                              refine ⟨rfl, rfl, rfl, rfl, rfl, rfl, rfl,
                                rfl, rfl, rfl, rfl, rfl, ?_, ?_⟩
                              · intro q' hq'
                                exact alookup_aset_ne _ _ _ _ hq'
                              · exact ⟨_, alookup_aset_eq _ _ _, rfl, rfl,
                                  rfl, rfl, rfl⟩

/-- The ladder-unlink phase of _delete_queue changes only best-queue
pointers, mid prices, and queue-record pointer fields: the price index,
both heaps' volumes/sides/limits, the volumes and the order state are
untouched. -/
theorem dq_unlink_vs (b b1 : Book) (side : Side) (qid : Nat)
    (h : dq_unlink b side qid = .ok b1) :
    b1.instr = b.instr ∧ b1.queues = b.queues ∧
    b1.order_map = b.order_map ∧ b1.orders = b.orders ∧
    b1.notifs = b.notifs ∧ b1.bv_bid = b.bv_bid ∧ b1.bv_ask = b.bv_ask ∧
    b1.min_bid = b.min_bid ∧ b1.max_ask = b.max_ask ∧
    b1.next_oid = b.next_oid ∧ b1.next_qid = b.next_qid ∧
    heapVS b1.qheap b.qheap := by
  unfold dq_unlink Book.getQ at h
  cases hq : alookup b.qheap qid with
  | none => simp only [hq, bind_error_eq] at h; exact Except.noConfusion h
  | some qr =>
      simp only [hq, bind_ok_eq] at h
      cases hbq : b.bestQ side with
      | none => simp only [hbq, bind_error_eq] at h; exact Except.noConfusion h
      | some bqid =>
          simp only [hbq] at h
          cases hbqr : alookup b.qheap bqid with
          | none =>
              simp only [hbqr, bind_error_eq] at h
              exact Except.noConfusion h
          | some bqr =>
              simp only [hbqr, bind_ok_eq] at h
              by_cases hlim : qr.limit = bqr.limit
              · rw [if_pos hlim] at h
                cases hnx : qr.qnext with
                | none =>
                    simp only [hnx, pure_ok_eq, bind_ok_eq] at h
                    obtain ⟨pm, cm, hb1⟩ := update_mid_shape _ _ h
                    subst hb1
                    refine ⟨setBestQ_misc b side none |>.1,
                      setBestQ_queues b side none,
                      setBestQ_order_map b side none,
                      setBestQ_orders b side none,
                      setBestQ_notifs b side none,
                      (setBestQ_bv b side none).1,
                      (setBestQ_bv b side none).2,
                      (setBestQ_minmax b side none).1,
                      (setBestQ_minmax b side none).2,
                      (setBestQ_misc b side none).2.1,
                      (setBestQ_misc b side none).2.2, ?_⟩
                    show heapVS (b.setBestQ side none).qheap b.qheap
                    rw [setBestQ_qheap]
                    exact heapVS_refl _
                | some nx =>
                    simp only [hnx, setBestQ_qheap, pure_ok_eq,
                      bind_ok_eq] at h
                    cases hnxq : alookup b.qheap nx with
                    | none =>
                        simp only [hnxq, bind_error_eq] at h
                        exact Except.noConfusion h
                    | some nxq =>
                        simp only [hnxq, bind_ok_eq, pure_ok_eq] at h
                        obtain ⟨pm, cm, hb1⟩ := update_mid_shape _ _ h
                        subst hb1
                        refine ⟨(setBestQ_misc b side (some nx)).1,
                          setBestQ_queues b side (some nx),
                          setBestQ_order_map b side (some nx),
                          setBestQ_orders b side (some nx),
                          setBestQ_notifs b side (some nx),
                          (setBestQ_bv b side (some nx)).1,
                          (setBestQ_bv b side (some nx)).2,
                          (setBestQ_minmax b side (some nx)).1,
                          (setBestQ_minmax b side (some nx)).2,
                          (setBestQ_misc b side (some nx)).2.1,
                          (setBestQ_misc b side (some nx)).2.2, ?_⟩
                        show heapVS
                          (aset (b.setBestQ side (some nx)).qheap nx
                            { nxq with qprev := none }) b.qheap
                        rw [setBestQ_qheap]
                        exact heapVS_aset _ _ _ _ hnxq rfl rfl rfl
              · rw [if_neg hlim] at h
                cases hpv : qr.qprev with
                | none =>
                    simp only [hpv, bind_error_eq] at h
                    exact Except.noConfusion h
                | some pv =>
                    simp only [hpv] at h
                    cases hpvq : alookup b.qheap pv with
                    | none =>
                        simp only [hpvq, bind_error_eq] at h
                        exact Except.noConfusion h
                    | some pvq =>
                        simp only [hpvq, bind_ok_eq] at h
                        cases hnx : qr.qnext with
                        | none =>
                            simp only [hnx, pure_ok_eq] at h
                            replace h := ((Except.ok.injEq _ _).mp h)
                            subst h
                            refine ⟨rfl, rfl, rfl, rfl, rfl, rfl, rfl, rfl,
                              rfl, rfl, rfl, ?_⟩
                            exact heapVS_aset _ _ _ _ hpvq rfl rfl rfl
                        | some nx =>
                            simp only [hnx] at h
                            cases hnxq : alookup
                                (b.setQ pv
                                  { pvq with qnext := some nx }).qheap
                                nx with
                            | none =>
                                simp only [hnx, hnxq, bind_error_eq] at h
                                exact Except.noConfusion h
                            | some nxq =>
                                simp only [hnx, hnxq, bind_ok_eq,
                                  pure_ok_eq] at h
                                replace h := ((Except.ok.injEq _ _).mp h)
                                subst h
                                refine ⟨rfl, rfl, rfl, rfl, rfl, rfl, rfl,
                                  rfl, rfl, rfl, rfl, ?_⟩
                                have hnxq2 : alookup
                                    (aset b.qheap pv
                                      { pvq with qnext := some nx }) nx
                                    = some nxq := hnxq
                                exact heapVS_trans
                                  (heapVS_aset _ _ _ _ hnxq2 rfl rfl rfl)
                                  (heapVS_aset _ _ _ _ hpvq rfl rfl rfl)

/-- The min_bid phase of _delete_queue writes only min_bid. -/
theorem dq_min_bid_shape (b b1 : Book) (side : Side) (qid : Nat)
    (h : dq_min_bid b side qid = .ok b1) :
    ∃ mb, b1 = { b with min_bid := mb } := by
  unfold dq_min_bid Book.getQ at h
  cases hq : alookup b.qheap qid with
  | none => simp only [hq, bind_error_eq] at h; exact Except.noConfusion h
  | some qr =>
      simp only [hq, bind_ok_eq] at h
      by_cases hc : side.isBid = true ∧ (qr.limit : WithTop ℚ) = b.min_bid
      · rw [if_pos hc] at h
        cases hpv : qr.qprev with
        | none =>
            simp only [hpv, pure_ok_eq] at h
            exact ⟨_, ((Except.ok.injEq _ _).mp h).symm⟩
        | some pv =>
            simp only [hpv] at h
            cases hpvq : alookup b.qheap pv with
            | none =>
                simp only [hpvq, bind_error_eq] at h
                exact Except.noConfusion h
            | some pvq =>
                simp only [hpvq, bind_ok_eq, pure_ok_eq] at h
                exact ⟨_, ((Except.ok.injEq _ _).mp h).symm⟩
      · rw [if_neg hc] at h
        simp only [pure_ok_eq] at h
        replace h := ((Except.ok.injEq _ _).mp h)
        exact ⟨b.min_bid, h.symm⟩

/-- The max_ask phase of _delete_queue writes only max_ask. -/
theorem dq_max_ask_shape (b b1 : Book) (side : Side) (qid : Nat)
    (h : dq_max_ask b side qid = .ok b1) :
    ∃ ma, b1 = { b with max_ask := ma } := by
  unfold dq_max_ask Book.getQ at h
  cases hq : alookup b.qheap qid with
  | none => simp only [hq, bind_error_eq] at h; exact Except.noConfusion h
  | some qr =>
      simp only [hq, bind_ok_eq] at h
      by_cases hc : (!side.isBid) = true ∧ qr.limit = b.max_ask
      · rw [if_pos hc] at h
        cases hpv : qr.qprev with
        | none =>
            simp only [hpv, pure_ok_eq] at h
            exact ⟨_, ((Except.ok.injEq _ _).mp h).symm⟩
        | some pv =>
            simp only [hpv] at h
            cases hpvq : alookup b.qheap pv with
            | none =>
                simp only [hpvq, bind_error_eq] at h
                exact Except.noConfusion h
            | some pvq =>
                simp only [hpvq, bind_ok_eq, pure_ok_eq] at h
                exact ⟨_, ((Except.ok.injEq _ _).mp h).symm⟩
      · rw [if_neg hc] at h
        simp only [pure_ok_eq] at h
        replace h := ((Except.ok.injEq _ _).mp h)
        exact ⟨b.max_ask, h.symm⟩

/-- The entry-removal phase of _delete_queue erases the price entry at
the queue's current limit and changes nothing else. -/
theorem dq_del_entry_spec (b b1 : Book) (qid : Nat) (qr : QueueRec)
    (hq : alookup b.qheap qid = some qr)
    (h : dq_del_entry b qid = .ok b1) :
    b1 = { b with queues := aerase b.queues qr.limit } := by
  unfold dq_del_entry Book.getQ at h
  simp only [hq, bind_ok_eq] at h
  cases hlk : alookup b.queues qr.limit with
  | none => simp only [hlk, bind_error_eq] at h; exact Except.noConfusion h
  | some v =>
      simp only [hlk, pure_ok_eq] at h
      exact ((Except.ok.injEq _ _).mp h).symm

/-- _delete_queue seen from the volume invariant: the price entry at the
queue's limit disappears, volumes/sides/limits of all queue records and
every order-side component are untouched. -/
theorem delete_queue_vs (b b1 : Book) (side : Side) (qid : Nat)
    (qr : QueueRec) (hq : alookup b.qheap qid = some qr)
    (h : delete_queue b side qid = .ok b1) :
    b1.instr = b.instr ∧ b1.queues = aerase b.queues qr.limit ∧
    b1.order_map = b.order_map ∧ b1.orders = b.orders ∧
    b1.notifs = b.notifs ∧ b1.bv_bid = b.bv_bid ∧ b1.bv_ask = b.bv_ask ∧
    b1.next_oid = b.next_oid ∧ b1.next_qid = b.next_qid ∧
    heapVS b1.qheap b.qheap := by
  unfold delete_queue at h
  cases h1 : dq_unlink b side qid with
  | error e =>
      rw [h1] at h
      simp only [bind_error_eq] at h
      exact Except.noConfusion h
  | ok bU =>
      rw [h1] at h
      simp only [bind_ok_eq] at h
      obtain ⟨hUi, hUq, hUom, hUo, hUn, hUb1, hUb2, hUmb, hUma, hUno,
        hUnq, hUvs⟩ := dq_unlink_vs b bU side qid h1
      cases h2 : dq_min_bid bU side qid with
      | error e =>
          rw [h2] at h
          simp only [bind_error_eq] at h
          exact Except.noConfusion h
      | ok bM =>
          rw [h2] at h
          simp only [bind_ok_eq] at h
          obtain ⟨mb, hbM⟩ := dq_min_bid_shape bU bM side qid h2
          subst hbM
          cases h3 : dq_max_ask { bU with min_bid := mb } side qid with
          | error e =>
              rw [h3] at h
              simp only [bind_error_eq] at h
              exact Except.noConfusion h
          | ok bX =>
              rw [h3] at h
              simp only [bind_ok_eq] at h
              obtain ⟨ma, hbX⟩ := dq_max_ask_shape _ bX side qid h3
              subst hbX
              obtain ⟨qrU, hqrU, hvol, hside, hlimU⟩ :=
                heapVS_lookup hUvs qid qr hq
              have hqrX : alookup
                  ({ { bU with min_bid := mb } with
                    max_ask := ma } : Book).qheap qid = some qrU := hqrU
              have hb1 := dq_del_entry_spec _ b1 qid qrU hqrX h
              subst hb1
              refine ⟨hUi, ?_, hUom, hUo, hUn, hUb1, hUb2, hUno, hUnq, ?_⟩
              · show aerase bU.queues qrU.limit = aerase b.queues qr.limit
                rw [hUq, hlimU]
              · exact hUvs

/-- addKey always makes the key present. -/
theorem contains_addKey (l : List Nat) (k : Nat) :
    (addKey l k).contains k = true := by
  unfold addKey
  by_cases hc : l.contains k = true
  · rw [if_pos hc]
    exact hc
  · rw [if_neg hc]
    simp [List.concat_eq_append]

/-- delKey of a freshly appended key restores the original list. -/
theorem delKey_addKey (l : List Nat) (k : Nat)
    (h : l.contains k = false) :
    delKey (addKey l k) k = l := by
  unfold addKey delKey
  rw [if_neg (by rw [h]; exact Bool.false_ne_true)]
  induction l with
  | nil => simp
  | cons a t ih =>
      simp only [List.contains_cons, Bool.or_eq_false_iff] at h
      have hak : (a == k) = false :=
        beq_eq_false_iff_ne.mpr (Ne.symm (beq_eq_false_iff_ne.mp h.1))
      simp only [List.concat_eq_append, List.cons_append, List.eraseP_cons,
        hak, cond_false]
      rw [← List.concat_eq_append, ih h.2]

/-- aerase of a freshly assigned key restores the original list. -/
theorem aerase_aset_fresh {α β : Type} [DecidableEq α]
    (l : List (α × β)) (k : α) (v : β) (h : alookup l k = none) :
    aerase (aset l k v) k = l := by
  induction l with
  | nil => simp [aset, aerase]
  | cons hd tl ih =>
      obtain ⟨a, w⟩ := hd
      simp only [alookup] at h
      by_cases hk : k = a
      · rw [if_pos hk] at h
        exact Option.noConfusion h
      · rw [if_neg hk] at h
        simp only [aset, aerase, if_neg hk]
        rw [ih h]

/-- on_limit with a strictly non-crossing price takes the resting
branch. -/
theorem on_limit_rests (b : Book) (side : Side) (quantity price : ℚ)
    (cl : String) (fuel : ℕ)
    (hopp : ∀ i, b.bestQ side.opp = some i →
      ∃ r, alookup b.qheap i = some r
        ∧ side.smul price < side.smul r.limit) :
    on_limit b side quantity price cl fuel
      = insert_order (newOrder b cl side quantity price).2
          (newOrder b cl side quantity price).1 fuel := by
  unfold on_limit Book.getQ
  cases hbo : b.bestQ side.opp with
  | none => rfl
  | some i =>
      obtain ⟨r, hr, hlt⟩ := hopp i hbo
      simp only [hr, bind_ok_eq]
      rw [if_neg (not_le.mpr hlt)]

/-- Inserting a limit order into an existing queue and cancelling it
immediately restores the price index, the order index, best pointers,
best volumes, side extrema and every pre-existing queue record. -/
theorem insert_cancel_existing (b : Book) (side : Side)
    (quantity price : ℚ) (cl : String) (fuel : ℕ)
    (qid : Nat) (qr : QueueRec) (h0 t0 : Nat) (trec : OrderRec)
    (hopp : ∀ i, b.bestQ side.opp = some i →
      ∃ r, alookup b.qheap i = some r
        ∧ side.smul price < side.smul r.limit)
    (hreg : alookup b.queues price = some qid)
    (hqr : alookup b.qheap qid = some qr)
    (hohead : qr.ohead = some h0)
    (hotail : qr.otail = some t0)
    (htrec : alookup b.orders t0 = some trec)
    (hfh : h0 ≠ b.next_oid)
    (hft : t0 ≠ b.next_oid)
    (homf : b.order_map.contains b.next_oid = false)
    (hq0 : quantity ≠ 0)
    (hvol0 : qr.volume ≠ 0)
    (hrva : roundDec qr.volume_precision (qr.volume + quantity)
      = qr.volume + quantity)
    (hrv0 : roundDec qr.volume_precision qr.volume = qr.volume)
    (hbva : b.instr.adjust_quantity (b.bestVol side + quantity)
      = b.bestVol side + quantity)
    (hbv0 : b.instr.adjust_quantity (b.bestVol side) = b.bestVol side) :
    ∃ b1 b2, on_limit b side quantity price cl fuel = .ok b1
      ∧ on_cancel b1 b.next_oid = .ok b2 ∧ restores b b2 := by
  have hft2 : b.next_oid ≠ t0 := Ne.symm hft
  have hq0b : (quantity == 0) = false := beq_eq_false_iff_ne.mpr hq0
  have hfhb : (h0 == b.next_oid) = false := beq_eq_false_iff_ne.mpr hfh
  have hvol0b : (qr.volume == 0) = false := beq_eq_false_iff_ne.mpr hvol0
  have hrvc : roundDec qr.volume_precision (qr.volume + quantity - quantity)
      = qr.volume := by
    rw [add_sub_cancel_right]
    exact hrv0
  have hbvc : b.instr.adjust_quantity
      (b.bestVol side + quantity - quantity) = b.bestVol side := by
    rw [add_sub_cancel_right]
    exact hbv0
  cases side
  all_goals
    simp only [Book.bestVol] at hbva hbv0 hbvc
    apply Exists.intro
    apply Exists.intro
    refine ⟨?_, ?_, ?_⟩
    · rw [on_limit_rests _ _ _ _ _ _ hopp]
      simp only [insert_order, newOrder, qadd, rv, Book.getO, Book.setO,
        Book.getQ, Book.setQ, Book.bestVol, Book.setBestVol, pushNotif,
        bind_ok_eq, bind_error_eq, pure_ok_eq, alookup_aset_eq,
        alookup_aset_ne _ _ _ _ hft, alookup_aset_ne _ _ _ _ hft2,
        hreg, hqr, hohead, hotail, htrec, hrva, hbva]
      rfl
    · simp only [on_cancel, get_order, qremove, rv, Book.getO, Book.setO,
        Book.getQ, Book.setQ, Book.bestVol, Book.setBestVol, pushNotif,
        bind_ok_eq, bind_error_eq, pure_ok_eq, contains_addKey,
        eq_self_iff_true, if_true, alookup_aset_eq,
        alookup_aset_ne _ _ _ _ hft, alookup_aset_ne _ _ _ _ hft2,
        hohead, hq0b, hfhb, beq_self_eq_true, Bool.false_eq_true,
        if_false, hrvc, hbvc, Nat.add_sub_cancel,
        delKey_addKey _ _ homf, hvol0b]
      rfl
    · unfold restores
      refine ⟨rfl, rfl, rfl, rfl, rfl, rfl, rfl, rfl, ?_⟩
      intro p i hpi
      by_cases hi : i = qid
      · subst hi
        simp only [alookup_aset_eq, hqr]
        obtain ⟨l, s, v, nb, qp, qn, oh, ot, vp⟩ := qr
        dsimp only at hohead hotail ⊢
        rw [hohead, hotail, add_sub_cancel_right]
      · simp only [alookup_aset_ne _ _ _ _ hi]

/-- Inserting a limit order at a fresh price on an empty side (a new
best queue with no ladder neighbours) and cancelling it immediately
restores the price index, the order index, best pointers, best volumes,
side extrema and every pre-existing queue record. -/
theorem insert_cancel_fresh_empty (b : Book) (side : Side)
    (quantity price : ℚ) (cl : String) (fuel : ℕ)
    (hopp : ∀ i, b.bestQ side.opp = some i →
      ∃ r, alookup b.qheap i = some r
        ∧ side.smul price < side.smul r.limit)
    (hfresh : alookup b.queues price = none)
    (hbest : b.bestQ side = none)
    (homf : b.order_map.contains b.next_oid = false)
    (hq0 : quantity ≠ 0)
    (hqheapf : ∀ i r, alookup b.qheap i = some r → i ≠ b.next_qid)
    (hqregf : ∀ p i, alookup b.queues p = some i → i ≠ b.next_qid)
    (hmid : b.bestQ side.opp ≠ none → ∃ m, b.curr_mid = some m)
    (hemin : side = Side.BID → b.min_bid = ⊤)
    (hemax : side = Side.ASK → b.max_ask = 0)
    (hp0 : (0 : ℚ) ≤ price)
    (hrq : roundDec 2 quantity = quantity)
    (hbva : b.instr.adjust_quantity (b.bestVol side + quantity)
      = b.bestVol side + quantity)
    (hbv0 : b.instr.adjust_quantity (b.bestVol side) = b.bestVol side) :
    ∃ b1 b2, on_limit b side quantity price cl fuel = .ok b1
      ∧ on_cancel b1 b.next_oid = .ok b2 ∧ restores b b2 := by
  have hq0b : (quantity == 0) = false := beq_eq_false_iff_ne.mpr hq0
  have hrq0 : roundDec 2 (quantity - quantity) = 0 := by
    rw [sub_self]
    exact roundDec_zero 2
  have hbvc : b.instr.adjust_quantity
      (b.bestVol side + quantity - quantity) = b.bestVol side := by
    rw [add_sub_cancel_right]
    exact hbv0
  cases side
  · have hopp2 := hopp
    have hmid2 := hmid
    have hemin2 := hemin rfl
    simp only [Side.opp, Book.bestQ] at hopp2 hmid2 hbest
    simp only [Book.bestVol] at hbva hbv0 hbvc
    have hminred : min (↑price) b.min_bid = (↑price : WithTop ℚ) := by
      rw [hemin2]
      exact min_eq_left le_top
    apply Exists.intro
    apply Exists.intro
    refine ⟨?_, ?_, ?_⟩
    · rw [on_limit_rests _ _ _ _ _ _ hopp]
      simp only [insert_order, newOrder, create_queue, Book.getO,
        Book.setO, Book.getQ, Book.setQ, Book.bestQ, Book.setBestQ,
        pushNotif, bind_ok_eq, bind_error_eq, pure_ok_eq, bind_assoc_eq,
        alookup_aset_eq, hfresh, hbest, Side.isBid_BID,
        eq_self_iff_true, if_true, hminred]
      apply update_mid_bind
      · intro i hi
        dsimp only at hi ⊢
        obtain ⟨r, hr, -⟩ := hopp2 i hi
        exact ⟨r, by
          rw [alookup_aset_ne _ _ _ _ (hqheapf i r hr)]
          exact hr⟩
      · intro i hi
        dsimp only at hi ⊢
        injection hi with h2
        subst h2
        exact ⟨_, alookup_aset_eq _ _ _⟩
      · intro ha hb
        dsimp only at ha ⊢
        exact hmid2 ha
      · simp only [qadd, rv, Book.getO, Book.setO, Book.getQ, Book.setQ,
          Book.bestVol, Book.setBestVol, pushNotif, bind_ok_eq,
          bind_error_eq, pure_ok_eq, alookup_aset_eq, zero_add, hrq,
          hbva]
        rfl
    · simp only [on_cancel, get_order, qremove, rv, delete_queue,
        dq_unlink, dq_min_bid, dq_max_ask, dq_del_entry, Book.getO,
        Book.setO, Book.getQ, Book.setQ, Book.bestQ, Book.setBestQ,
        Book.bestVol, Book.setBestVol, pushNotif, bind_ok_eq,
        bind_error_eq, pure_ok_eq, bind_assoc_eq, contains_addKey,
        eq_self_iff_true, if_true, alookup_aset_eq, hq0b,
        beq_self_eq_true, Bool.false_eq_true, if_false, hrq0, hbvc,
        Side.isBid_BID, Bool.not_true, delKey_addKey _ _ homf,
        aerase_aset_fresh _ _ _ hfresh, false_and, and_true, true_and]
      apply update_mid_bind
      · intro i hi
        dsimp only at hi ⊢
        obtain ⟨r, hr, -⟩ := hopp2 i hi
        have hne := hqheapf i r hr
        simp only [alookup_aset_ne _ _ _ _ hne]
        exact ⟨r, hr⟩
      · intro i hi
        exact Option.noConfusion hi
      · intro ha hb
        exact absurd rfl hb
      · simp only [dq_min_bid, dq_max_ask, dq_del_entry, Book.getQ,
          Book.setQ, Book.getO, Book.setO, pushNotif, bind_ok_eq,
          bind_error_eq, pure_ok_eq, alookup_aset_eq, eq_self_iff_true,
          if_true, Side.isBid_BID, Bool.not_true, Bool.false_eq_true,
          if_false, false_and, and_true, true_and, contains_addKey,
          sub_self, delKey_addKey _ _ homf,
          aerase_aset_fresh _ _ _ hfresh]
        rfl
    · unfold restores
      refine ⟨rfl, rfl, hbest.symm, rfl, rfl, rfl, hemin2.symm, rfl, ?_⟩
      intro p i hpi
      have hi := hqregf p i hpi
      simp only [alookup_aset_ne _ _ _ _ hi]
  · have hopp2 := hopp
    have hmid2 := hmid
    have hemax2 := hemax rfl
    simp only [Side.opp, Book.bestQ] at hopp2 hmid2 hbest
    simp only [Book.bestVol] at hbva hbv0 hbvc
    have hmaxred : max price b.max_ask = price := by
      rw [hemax2]
      exact max_eq_left hp0
    apply Exists.intro
    apply Exists.intro
    refine ⟨?_, ?_, ?_⟩
    · rw [on_limit_rests _ _ _ _ _ _ hopp]
      simp only [insert_order, newOrder, create_queue, Book.getO,
        Book.setO, Book.getQ, Book.setQ, Book.bestQ, Book.setBestQ,
        pushNotif, bind_ok_eq, bind_error_eq, pure_ok_eq, bind_assoc_eq,
        alookup_aset_eq, hfresh, hbest, Side.isBid_ASK,
        Bool.false_eq_true, if_false, hmaxred]
      apply update_mid_bind
      · intro i hi
        dsimp only at hi ⊢
        injection hi with h2
        subst h2
        exact ⟨_, alookup_aset_eq _ _ _⟩
      · intro i hi
        dsimp only at hi ⊢
        obtain ⟨r, hr, -⟩ := hopp2 i hi
        exact ⟨r, by
          rw [alookup_aset_ne _ _ _ _ (hqheapf i r hr)]
          exact hr⟩
      · intro ha hb
        dsimp only at hb ⊢
        exact hmid2 hb
      · simp only [qadd, rv, Book.getO, Book.setO, Book.getQ, Book.setQ,
          Book.bestVol, Book.setBestVol, pushNotif, bind_ok_eq,
          bind_error_eq, pure_ok_eq, alookup_aset_eq, zero_add, hrq,
          hbva]
        rfl
    · simp only [on_cancel, get_order, qremove, rv, delete_queue,
        dq_unlink, dq_min_bid, dq_max_ask, dq_del_entry, Book.getO,
        Book.setO, Book.getQ, Book.setQ, Book.bestQ, Book.setBestQ,
        Book.bestVol, Book.setBestVol, pushNotif, bind_ok_eq,
        bind_error_eq, pure_ok_eq, bind_assoc_eq, contains_addKey,
        eq_self_iff_true, if_true, alookup_aset_eq, hq0b,
        beq_self_eq_true, Bool.false_eq_true, if_false, hrq0, hbvc,
        Side.isBid_ASK, Bool.not_false, delKey_addKey _ _ homf,
        aerase_aset_fresh _ _ _ hfresh, false_and, and_true, true_and]
      apply update_mid_bind
      · intro i hi
        exact Option.noConfusion hi
      · intro i hi
        dsimp only at hi ⊢
        obtain ⟨r, hr, -⟩ := hopp2 i hi
        have hne := hqheapf i r hr
        simp only [alookup_aset_ne _ _ _ _ hne]
        exact ⟨r, hr⟩
      · intro ha hb
        exact absurd rfl ha
      · simp only [dq_min_bid, dq_max_ask, dq_del_entry, Book.getQ,
          Book.setQ, Book.getO, Book.setO, pushNotif, bind_ok_eq,
          bind_error_eq, pure_ok_eq, alookup_aset_eq, eq_self_iff_true,
          if_true, Side.isBid_ASK, Bool.not_false, Bool.false_eq_true,
          if_false, false_and, and_true, true_and, contains_addKey,
          sub_self, delKey_addKey _ _ homf,
          aerase_aset_fresh _ _ _ hfresh]
        rfl
    · unfold restores
      refine ⟨rfl, rfl, rfl, hbest.symm, rfl, rfl, rfl, hemax2.symm, ?_⟩
      intro p i hpi
      have hi := hqregf p i hpi
      simp only [alookup_aset_ne _ _ _ _ hi]

/-- Inserting a limit order at a fresh price that becomes the new best
of its side (spliced in front of the old best) and cancelling it
immediately restores the price index, the order index, best pointers,
best volumes, side extrema and every pre-existing queue record. -/
theorem insert_cancel_fresh_best (b : Book) (side : Side)
    (quantity price : ℚ) (cl : String) (fuel : ℕ)
    (best : Nat) (bqr : QueueRec)
    (hopp : ∀ i, b.bestQ side.opp = some i →
      ∃ r, alookup b.qheap i = some r
        ∧ side.smul price < side.smul r.limit)
    (hfresh : alookup b.queues price = none)
    (hbest : b.bestQ side = some best)
    (hbq : alookup b.qheap best = some bqr)
    (hbqprev : bqr.qprev = none)
    (hcross : side.smul bqr.limit < side.smul price)
    (hminle : side = Side.BID → b.min_bid ≤ (↑bqr.limit : WithTop ℚ))
    (hmaxle : side = Side.ASK → bqr.limit ≤ b.max_ask)
    (homf : b.order_map.contains b.next_oid = false)
    (hq0 : quantity ≠ 0)
    (hqheapf : ∀ i r, alookup b.qheap i = some r → i ≠ b.next_qid)
    (hqregf : ∀ p i, alookup b.queues p = some i → i ≠ b.next_qid)
    (hmid : b.bestQ side.opp ≠ none → ∃ m, b.curr_mid = some m)
    (hrq : roundDec 2 quantity = quantity)
    (hbva : b.instr.adjust_quantity (b.bestVol side + quantity)
      = b.bestVol side + quantity)
    (hbv0 : b.instr.adjust_quantity (b.bestVol side) = b.bestVol side) :
    ∃ b1 b2, on_limit b side quantity price cl fuel = .ok b1
      ∧ on_cancel b1 b.next_oid = .ok b2 ∧ restores b b2 := by
  have hq0b : (quantity == 0) = false := beq_eq_false_iff_ne.mpr hq0
  have hrq0 : roundDec 2 (quantity - quantity) = 0 := by
    rw [sub_self]
    exact roundDec_zero 2
  have hbvc : b.instr.adjust_quantity
      (b.bestVol side + quantity - quantity) = b.bestVol side := by
    rw [add_sub_cancel_right]
    exact hbv0
  have hbne : best ≠ b.next_qid := hqheapf best bqr hbq
  have hnb : b.next_qid ≠ best := Ne.symm hbne
  cases side
  · have hopp2 := hopp
    have hmid2 := hmid
    simp only [Side.opp, Book.bestQ] at hopp2 hmid2 hbest
    simp only [Book.bestVol] at hbva hbv0 hbvc
    have hc' : bqr.limit < price := by
      have h := hcross
      simp only [Side.smul, Side.val] at h
      push_cast at h
      linarith
    have hminlt : b.min_bid < (↑price : WithTop ℚ) :=
      lt_of_le_of_lt (hminle rfl) (WithTop.coe_lt_coe.mpr hc')
    have hminred : min (↑price) b.min_bid = b.min_bid :=
      min_eq_right (le_of_lt hminlt)
    have hpmne : (((↑price : WithTop ℚ)) = b.min_bid) = False :=
      eq_false hminlt.ne'
    apply Exists.intro
    apply Exists.intro
    refine ⟨?_, ?_, ?_⟩
    · rw [on_limit_rests _ _ _ _ _ _ hopp]
      simp only [insert_order, newOrder, create_queue, Book.getO,
        Book.setO, Book.getQ, Book.setQ, Book.bestQ, Book.setBestQ,
        pushNotif, bind_ok_eq, bind_error_eq, pure_ok_eq, bind_assoc_eq,
        alookup_aset_eq, alookup_aset_ne _ _ _ _ hbne, hbq, hfresh,
        hbest, Side.isBid_BID, eq_self_iff_true, if_true, hminred,
        gt_iff_lt, hcross]
      apply update_mid_bind
      · intro i hi
        dsimp only at hi ⊢
        obtain ⟨r, hr, -⟩ := hopp2 i hi
        by_cases hib : i = best
        · subst hib
          exact ⟨_, alookup_aset_eq _ _ _⟩
        · have hin : i ≠ b.next_qid := hqheapf i r hr
          exact ⟨r, by
            rw [alookup_aset_ne _ _ _ _ hib, alookup_aset_ne _ _ _ _ hin,
              alookup_aset_ne _ _ _ _ hin]
            exact hr⟩
      · intro i hi
        dsimp only at hi ⊢
        injection hi with h2
        subst h2
        exact ⟨_, by
          rw [alookup_aset_ne _ _ _ _ hnb]
          exact alookup_aset_eq _ _ _⟩
      · intro ha hb
        dsimp only at ha ⊢
        exact hmid2 ha
      · simp only [qadd, rv, Book.getO, Book.setO, Book.getQ, Book.setQ,
          Book.bestVol, Book.setBestVol, pushNotif, bind_ok_eq,
          bind_error_eq, pure_ok_eq, alookup_aset_eq,
          alookup_aset_ne _ _ _ _ hnb, zero_add, hrq, hbva]
        rfl
    · simp only [on_cancel, get_order, qremove, rv, delete_queue,
        dq_unlink, dq_min_bid, dq_max_ask, dq_del_entry, Book.getO,
        Book.setO, Book.getQ, Book.setQ, Book.bestQ, Book.setBestQ,
        Book.bestVol, Book.setBestVol, pushNotif, bind_ok_eq,
        bind_error_eq, pure_ok_eq, bind_assoc_eq, contains_addKey,
        eq_self_iff_true, if_true, alookup_aset_eq,
        alookup_aset_ne _ _ _ _ hbne, hq0b, beq_self_eq_true,
        Bool.false_eq_true, if_false, hrq0, hbvc, Side.isBid_BID,
        Bool.not_true, delKey_addKey _ _ homf,
        aerase_aset_fresh _ _ _ hfresh, false_and, and_true, true_and,
        and_false, hpmne]
      apply update_mid_bind
      · intro i hi
        dsimp only at hi ⊢
        obtain ⟨r, hr, -⟩ := hopp2 i hi
        by_cases hib : i = best
        · subst hib
          exact ⟨_, alookup_aset_eq _ _ _⟩
        · have hin : i ≠ b.next_qid := hqheapf i r hr
          refine ⟨r, ?_⟩
          simp only [alookup_aset_ne _ _ _ _ hib,
            alookup_aset_ne _ _ _ _ hin]
          exact hr
      · intro i hi
        dsimp only at hi ⊢
        injection hi with h2
        subst h2
        exact ⟨_, alookup_aset_eq _ _ _⟩
      · intro ha hb
        dsimp only at ha ⊢
        cases hoa : b.bq_ask with
        | none => exact absurd hoa ha
        | some a =>
            obtain ⟨r, hr, -⟩ := hopp2 a hoa
            obtain ⟨m, hcm⟩ := hmid2
              (by rw [hoa]; exact fun hh => Option.noConfusion hh)
            by_cases hab : a = best
            · subst hab
              exact updateMids_snd_some _ a b.next_qid _ _ rfl rfl
                (alookup_aset_eq _ _ _)
                (by
                  rw [alookup_aset_ne _ _ _ _ hnb]
                  exact alookup_aset_eq _ _ _) m hcm
            · have hanq : a ≠ b.next_qid := hqheapf a r hr
              exact updateMids_snd_some _ a b.next_qid r _ rfl rfl
                (by
                  rw [alookup_aset_ne _ _ _ _ hab,
                    alookup_aset_ne _ _ _ _ hanq,
                    alookup_aset_ne _ _ _ _ hanq]
                  exact hr)
                (by
                  rw [alookup_aset_ne _ _ _ _ hnb]
                  exact alookup_aset_eq _ _ _) m hcm
      · simp only [dq_min_bid, dq_max_ask, dq_del_entry, Book.getQ,
          Book.setQ, Book.getO, Book.setO, pushNotif, bind_ok_eq,
          bind_error_eq, pure_ok_eq, alookup_aset_eq,
          alookup_aset_ne _ _ _ _ hnb, eq_self_iff_true, if_true,
          Side.isBid_BID, Bool.not_true, Bool.false_eq_true, if_false,
          false_and, and_true, true_and, and_false, hpmne,
          contains_addKey, sub_self, delKey_addKey _ _ homf,
          aerase_aset_fresh _ _ _ hfresh]
        rfl
    · unfold restores
      refine ⟨rfl, rfl, hbest.symm, rfl, rfl, rfl, rfl, rfl, ?_⟩
      intro p i hpi
      have hin := hqregf p i hpi
      by_cases hib : i = best
      · subst hib
        rw [alookup_aset_eq, hbq]
        obtain ⟨l, s, v, nb, qp, qn, oh, ot, vp⟩ := bqr
        dsimp only at hbqprev ⊢
        rw [hbqprev]
      · simp only [alookup_aset_ne _ _ _ _ hib,
          alookup_aset_ne _ _ _ _ hin]
  · have hopp2 := hopp
    have hmid2 := hmid
    simp only [Side.opp, Book.bestQ] at hopp2 hmid2 hbest
    simp only [Book.bestVol] at hbva hbv0 hbvc
    have hc' : price < bqr.limit := by
      have h := hcross
      simp only [Side.smul, Side.val] at h
      push_cast at h
      linarith
    have hmaxlt : price < b.max_ask := lt_of_lt_of_le hc' (hmaxle rfl)
    have hmaxred : max price b.max_ask = b.max_ask :=
      max_eq_right (le_of_lt hmaxlt)
    have hpmne : (price = b.max_ask) = False := eq_false hmaxlt.ne
    apply Exists.intro
    apply Exists.intro
    refine ⟨?_, ?_, ?_⟩
    · rw [on_limit_rests _ _ _ _ _ _ hopp]
      simp only [insert_order, newOrder, create_queue, Book.getO,
        Book.setO, Book.getQ, Book.setQ, Book.bestQ, Book.setBestQ,
        pushNotif, bind_ok_eq, bind_error_eq, pure_ok_eq, bind_assoc_eq,
        alookup_aset_eq, alookup_aset_ne _ _ _ _ hbne, hbq, hfresh,
        hbest, Side.isBid_ASK, Bool.false_eq_true, if_false, hmaxred,
        eq_self_iff_true, if_true, gt_iff_lt, hcross]
      apply update_mid_bind
      · intro i hi
        dsimp only at hi ⊢
        injection hi with h2
        subst h2
        exact ⟨_, by
          rw [alookup_aset_ne _ _ _ _ hnb]
          exact alookup_aset_eq _ _ _⟩
      · intro i hi
        dsimp only at hi ⊢
        obtain ⟨r, hr, -⟩ := hopp2 i hi
        by_cases hib : i = best
        · subst hib
          exact ⟨_, alookup_aset_eq _ _ _⟩
        · have hin : i ≠ b.next_qid := hqheapf i r hr
          exact ⟨r, by
            rw [alookup_aset_ne _ _ _ _ hib, alookup_aset_ne _ _ _ _ hin,
              alookup_aset_ne _ _ _ _ hin]
            exact hr⟩
      · intro ha hb
        dsimp only at hb ⊢
        exact hmid2 hb
      · simp only [qadd, rv, Book.getO, Book.setO, Book.getQ, Book.setQ,
          Book.bestVol, Book.setBestVol, pushNotif, bind_ok_eq,
          bind_error_eq, pure_ok_eq, alookup_aset_eq,
          alookup_aset_ne _ _ _ _ hnb, zero_add, hrq, hbva]
        rfl
    · simp only [on_cancel, get_order, qremove, rv, delete_queue,
        dq_unlink, dq_min_bid, dq_max_ask, dq_del_entry, Book.getO,
        Book.setO, Book.getQ, Book.setQ, Book.bestQ, Book.setBestQ,
        Book.bestVol, Book.setBestVol, pushNotif, bind_ok_eq,
        bind_error_eq, pure_ok_eq, bind_assoc_eq, contains_addKey,
        eq_self_iff_true, if_true, alookup_aset_eq,
        alookup_aset_ne _ _ _ _ hbne, hq0b, beq_self_eq_true,
        Bool.false_eq_true, if_false, hrq0, hbvc, Side.isBid_ASK,
        Bool.not_false, delKey_addKey _ _ homf,
        aerase_aset_fresh _ _ _ hfresh, false_and, and_true, true_and,
        and_false, hpmne]
      apply update_mid_bind
      · intro i hi
        dsimp only at hi ⊢
        injection hi with h2
        subst h2
        exact ⟨_, alookup_aset_eq _ _ _⟩
      · intro i hi
        dsimp only at hi ⊢
        obtain ⟨r, hr, -⟩ := hopp2 i hi
        by_cases hib : i = best
        · subst hib
          exact ⟨_, alookup_aset_eq _ _ _⟩
        · have hin : i ≠ b.next_qid := hqheapf i r hr
          refine ⟨r, ?_⟩
          simp only [alookup_aset_ne _ _ _ _ hib,
            alookup_aset_ne _ _ _ _ hin]
          exact hr
      · intro ha hb
        dsimp only at hb ⊢
        cases hob : b.bq_bid with
        | none => exact absurd hob hb
        | some a =>
            obtain ⟨r, hr, -⟩ := hopp2 a hob
            obtain ⟨m, hcm⟩ := hmid2
              (by rw [hob]; exact fun hh => Option.noConfusion hh)
            by_cases hab : a = best
            · subst hab
              exact updateMids_snd_some _ b.next_qid a _ _ rfl rfl
                (by
                  rw [alookup_aset_ne _ _ _ _ hnb]
                  exact alookup_aset_eq _ _ _)
                (alookup_aset_eq _ _ _) m hcm
            · have hanq : a ≠ b.next_qid := hqheapf a r hr
              exact updateMids_snd_some _ b.next_qid a _ r rfl rfl
                (by
                  rw [alookup_aset_ne _ _ _ _ hnb]
                  exact alookup_aset_eq _ _ _)
                (by
                  rw [alookup_aset_ne _ _ _ _ hab,
                    alookup_aset_ne _ _ _ _ hanq,
                    alookup_aset_ne _ _ _ _ hanq]
                  exact hr) m hcm
      · simp only [dq_min_bid, dq_max_ask, dq_del_entry, Book.getQ,
          Book.setQ, Book.getO, Book.setO, pushNotif, bind_ok_eq,
          bind_error_eq, pure_ok_eq, alookup_aset_eq,
          alookup_aset_ne _ _ _ _ hnb, eq_self_iff_true, if_true,
          Side.isBid_ASK, Bool.not_false, Bool.false_eq_true, if_false,
          false_and, and_true, true_and, and_false, hpmne,
          contains_addKey, sub_self, delKey_addKey _ _ homf,
          aerase_aset_fresh _ _ _ hfresh]
        rfl
    · unfold restores
      refine ⟨rfl, rfl, rfl, hbest.symm, rfl, rfl, rfl, rfl, ?_⟩
      intro p i hpi
      have hin := hqregf p i hpi
      by_cases hib : i = best
      · subst hib
        rw [alookup_aset_eq, hbq]
        obtain ⟨l, s, v, nb, qp, qn, oh, ot, vp⟩ := bqr
        dsimp only at hbqprev ⊢
        rw [hbqprev]
      · simp only [alookup_aset_ne _ _ _ _ hib,
          alookup_aset_ne _ _ _ _ hin]

/-- Inserting a limit order at a fresh interior (or new-worst) price of
a non-empty side -- the queue is spliced after the predecessor found by
_find_prev_queue -- and cancelling it immediately restores the price
index, the order index, best pointers, best volumes, side extrema and
every pre-existing queue record. -/
theorem insert_cancel_fresh_interior (b : Book) (side : Side)
    (quantity price : ℚ) (cl : String) (fuel : ℕ)
    (best pv : Nat) (bqr pvq : QueueRec)
    (hopp : ∀ i, b.bestQ side.opp = some i →
      ∃ r, alookup b.qheap i = some r
        ∧ side.smul price < side.smul r.limit)
    (hfresh : alookup b.queues price = none)
    (hbest : b.bestQ side = some best)
    (hbq : alookup b.qheap best = some bqr)
    (hbreg : alookup b.queues bqr.limit = some best)
    (hncross : side.smul price < side.smul bqr.limit)
    (hfind : find_prev_queue b.instr b.queues price side fuel = some pv)
    (hpv : alookup b.qheap pv = some pvq)
    (hpvreg : alookup b.queues pvq.limit = some pv)
    (hqnx : ∀ nx, pvq.qnext = some nx →
      ∃ nxq, alookup b.qheap nx = some nxq ∧ nxq.qprev = some pv
        ∧ nx ≠ pv ∧ alookup b.queues nxq.limit = some nx)
    (hworstB : side = Side.BID → (↑price : WithTop ℚ) < b.min_bid →
      (↑pvq.limit : WithTop ℚ) = b.min_bid)
    (hworstA : side = Side.ASK → b.max_ask < price →
      pvq.limit = b.max_ask)
    (hneB : side = Side.BID → ((↑price : WithTop ℚ)) ≠ b.min_bid)
    (hneA : side = Side.ASK → price ≠ b.max_ask)
    (homf : b.order_map.contains b.next_oid = false)
    (hq0 : quantity ≠ 0)
    (hqheapf : ∀ i r, alookup b.qheap i = some r → i ≠ b.next_qid)
    (hqregf : ∀ p i, alookup b.queues p = some i → i ≠ b.next_qid)
    (hrq : roundDec 2 quantity = quantity)
    (hbva : b.instr.adjust_quantity (b.bestVol side + quantity)
      = b.bestVol side + quantity)
    (hbv0 : b.instr.adjust_quantity (b.bestVol side) = b.bestVol side) :
    ∃ b1 b2, on_limit b side quantity price cl fuel = .ok b1
      ∧ on_cancel b1 b.next_oid = .ok b2 ∧ restores b b2 := by
  have hq0b : (quantity == 0) = false := beq_eq_false_iff_ne.mpr hq0
  have hrq0 : roundDec 2 (quantity - quantity) = 0 := by
    rw [sub_self]
    exact roundDec_zero 2
  have hbvc : b.instr.adjust_quantity
      (b.bestVol side + quantity - quantity) = b.bestVol side := by
    rw [add_sub_cancel_right]
    exact hbv0
  have hbne : best ≠ b.next_qid := hqheapf best bqr hbq
  have hnb : b.next_qid ≠ best := Ne.symm hbne
  have hpvf : pv ≠ b.next_qid := hqheapf pv pvq hpv
  have hpvnb : b.next_qid ≠ pv := Ne.symm hpvf
  have hplim : pvq.limit ≠ price := by
    intro hh
    rw [hh, hfresh] at hpvreg
    exact Option.noConfusion hpvreg
  have hblim : bqr.limit ≠ price := by
    intro hh
    rw [hh, hfresh] at hbreg
    exact Option.noConfusion hbreg
  cases side
  · have hopp2 := hopp
    simp only [Side.opp, Book.bestQ] at hopp2 hbest
    simp only [Book.bestVol] at hbva hbv0 hbvc
    have hworst2 := hworstB rfl
    have hne2 := hneB rfl
    have hcf : (Side.BID.smul bqr.limit < Side.BID.smul price) = False :=
      eq_false (lt_asymm hncross)
    rcases hqn : pvq.qnext with _ | nx
    · apply Exists.intro
      apply Exists.intro
      refine ⟨?_, ?_, ?_⟩
      · rw [on_limit_rests _ _ _ _ _ _ hopp]
        simp only [insert_order, newOrder, create_queue, qadd, rv,
          Book.getO, Book.setO, Book.getQ, Book.setQ, Book.bestQ,
          Book.setBestQ, Book.bestVol, Book.setBestVol, pushNotif,
          bind_ok_eq, bind_error_eq, pure_ok_eq, bind_assoc_eq,
          alookup_aset_eq, alookup_aset_ne _ _ _ _ hbne,
          alookup_aset_ne _ _ _ _ hpvf, alookup_aset_ne _ _ _ _ hpvnb,
          hbq, hpv, hfresh, hbest, hfind, hqn, Side.isBid_BID,
          eq_self_iff_true, if_true, gt_iff_lt, hcf,
          Bool.false_eq_true, if_false, zero_add, hrq, hbva]
        rfl
      · simp only [on_cancel, get_order, qremove, rv, delete_queue,
          Book.getO, Book.setO, Book.getQ, Book.setQ, Book.bestQ,
          Book.setBestQ, Book.bestVol, Book.setBestVol, pushNotif,
          bind_ok_eq, bind_error_eq, pure_ok_eq, bind_assoc_eq,
          contains_addKey, eq_self_iff_true, if_true, alookup_aset_eq,
          alookup_aset_ne _ _ _ _ hpvnb, hq0b, beq_self_eq_true,
          Bool.false_eq_true, if_false, hrq0, hbvc, sub_self,
          roundDec_zero]
        apply dq_unlink_nb_none
        · exact alookup_aset_eq _ _ _
        · rfl
        · by_cases hbp : best = pv
          · subst hbp
            refine ⟨{ pvq with qnext := some b.next_qid }, ?_, ?_⟩
            · simp only [alookup_aset_ne _ _ _ _ hpvf]
              exact alookup_aset_eq _ _ _
            · dsimp only
              exact Ne.symm hplim
          · refine ⟨bqr, ?_, ?_⟩
            · simp only [alookup_aset_ne _ _ _ _ hbne,
                alookup_aset_ne _ _ _ _ hbp]
              exact hbq
            · dsimp only
              exact Ne.symm hblim
        · rfl
        · rfl
        · simp only [alookup_aset_ne _ _ _ _ hpvf]
          exact alookup_aset_eq _ _ _
        · apply dq_min_bid_bind
          · simp only [Book.setQ, alookup_aset_ne _ _ _ _ hpvnb]
            exact alookup_aset_eq _ _ _
          · rfl
          · simp only [Book.setQ]
            exact alookup_aset_eq _ _ _
          · simp only [dq_max_ask, dq_del_entry, Book.getQ, Book.setQ,
              Book.getO, Book.setO, pushNotif, bind_ok_eq,
              bind_error_eq, pure_ok_eq, alookup_aset_eq,
              alookup_aset_ne _ _ _ _ hpvnb, Side.isBid_BID,
              Bool.not_true, Bool.false_eq_true, if_false, false_and,
              eq_self_iff_true, if_true, true_and, and_true,
              contains_addKey, sub_self, delKey_addKey _ _ homf,
              aerase_aset_fresh _ _ _ hfresh]
            rfl
      · unfold restores
        refine ⟨rfl, rfl, hbest.symm, rfl, rfl, rfl, ?_, rfl, ?_⟩
        · by_cases hwm : (↑price : WithTop ℚ) < b.min_bid
          · rw [min_eq_left (le_of_lt hwm), if_pos rfl]
            exact hworst2 hwm
          · have hlt : b.min_bid < (↑price : WithTop ℚ) :=
              lt_of_le_of_ne (not_lt.mp hwm) (Ne.symm hne2)
            rw [min_eq_right (le_of_lt hlt), if_neg hne2]
        · intro p i hpi
          have hin := hqregf p i hpi
          by_cases hip : i = pv
          · subst hip
            simp only [alookup_aset_eq, hpv]
            obtain ⟨l, s, v, nb, qp, qn, oh, ot, vp⟩ := pvq
            dsimp only at hqn ⊢
            rw [hqn]
          · simp only [alookup_aset_ne _ _ _ _ hip,
              alookup_aset_ne _ _ _ _ hin]
    · obtain ⟨nxq, hnxq, hnxprev, hnxpv, hnxreg⟩ := hqnx nx hqn
      have hnxf : nx ≠ b.next_qid := hqheapf nx nxq hnxq
      have hnbx : b.next_qid ≠ nx := Ne.symm hnxf
      have hpvnx : pv ≠ nx := Ne.symm hnxpv
      have hnxlim : nxq.limit ≠ price := by
        intro hh
        rw [hh, hfresh] at hnxreg
        exact Option.noConfusion hnxreg
      apply Exists.intro
      apply Exists.intro
      refine ⟨?_, ?_, ?_⟩
      · rw [on_limit_rests _ _ _ _ _ _ hopp]
        simp only [insert_order, newOrder, create_queue, qadd, rv,
          Book.getO, Book.setO, Book.getQ, Book.setQ, Book.bestQ,
          Book.setBestQ, Book.bestVol, Book.setBestVol, pushNotif,
          bind_ok_eq, bind_error_eq, pure_ok_eq, bind_assoc_eq,
          alookup_aset_eq, alookup_aset_ne _ _ _ _ hbne,
          alookup_aset_ne _ _ _ _ hpvf, alookup_aset_ne _ _ _ _ hpvnb,
          alookup_aset_ne _ _ _ _ hnxf, alookup_aset_ne _ _ _ _ hnbx,
          hnxq,
          hbq, hpv, hfresh, hbest, hfind, hqn, Side.isBid_BID,
          eq_self_iff_true, if_true, gt_iff_lt, hcf,
          Bool.false_eq_true, if_false, zero_add, hrq, hbva]
        rfl
      · simp only [on_cancel, get_order, qremove, rv, delete_queue,
          Book.getO, Book.setO, Book.getQ, Book.setQ, Book.bestQ,
          Book.setBestQ, Book.bestVol, Book.setBestVol, pushNotif,
          bind_ok_eq, bind_error_eq, pure_ok_eq, bind_assoc_eq,
          contains_addKey, eq_self_iff_true, if_true, alookup_aset_eq,
          alookup_aset_ne _ _ _ _ hpvnb, hq0b, beq_self_eq_true,
          Bool.false_eq_true, if_false, hrq0, hbvc, sub_self,
          roundDec_zero]
        apply dq_unlink_nb_some
        · exact alookup_aset_eq _ _ _
        · rfl
        · by_cases hbp : best = pv
          · subst hbp
            refine ⟨{ pvq with qnext := some b.next_qid }, ?_, ?_⟩
            · simp only [alookup_aset_ne _ _ _ _ hpvf]
              exact alookup_aset_eq _ _ _
            · dsimp only
              exact Ne.symm hplim
          · by_cases hbx : best = nx
            · subst hbx
              refine ⟨{ nxq with qprev := some b.next_qid }, ?_, ?_⟩
              · simp only [alookup_aset_ne _ _ _ _ hnxf,
                  alookup_aset_ne _ _ _ _ hnxpv]
                exact alookup_aset_eq _ _ _
              · dsimp only
                exact Ne.symm hnxlim
            · refine ⟨bqr, ?_, ?_⟩
              · simp only [alookup_aset_ne _ _ _ _ hbne,
                  alookup_aset_ne _ _ _ _ hbp,
                  alookup_aset_ne _ _ _ _ hbx]
                exact hbq
              · dsimp only
                exact Ne.symm hblim
        · rfl
        · rfl
        · exact hnxpv
        · simp only [alookup_aset_ne _ _ _ _ hnxf,
            alookup_aset_ne _ _ _ _ hnxpv]
          exact alookup_aset_eq _ _ _
        · simp only [alookup_aset_ne _ _ _ _ hpvf]
          exact alookup_aset_eq _ _ _
        · apply dq_min_bid_bind
          · simp only [Book.setQ, alookup_aset_ne _ _ _ _ hnbx,
              alookup_aset_ne _ _ _ _ hpvnb]
            exact alookup_aset_eq _ _ _
          · rfl
          · simp only [Book.setQ, alookup_aset_ne _ _ _ _ hpvnx]
            exact alookup_aset_eq _ _ _
          · simp only [dq_max_ask, dq_del_entry, Book.getQ, Book.setQ,
              Book.getO, Book.setO, pushNotif, bind_ok_eq,
              bind_error_eq, pure_ok_eq, alookup_aset_eq,
              alookup_aset_ne _ _ _ _ hpvnb,
              alookup_aset_ne _ _ _ _ hnbx, Side.isBid_BID,
              Bool.not_true, Bool.false_eq_true, if_false, false_and,
              eq_self_iff_true, if_true, true_and, and_true,
              contains_addKey, sub_self, delKey_addKey _ _ homf,
              aerase_aset_fresh _ _ _ hfresh]
            rfl
      · unfold restores
        refine ⟨rfl, rfl, hbest.symm, rfl, rfl, rfl, ?_, rfl, ?_⟩
        · by_cases hwm : (↑price : WithTop ℚ) < b.min_bid
          · rw [min_eq_left (le_of_lt hwm), if_pos rfl]
            exact hworst2 hwm
          · have hlt : b.min_bid < (↑price : WithTop ℚ) :=
              lt_of_le_of_ne (not_lt.mp hwm) (Ne.symm hne2)
            rw [min_eq_right (le_of_lt hlt), if_neg hne2]
        · intro p i hpi
          have hin := hqregf p i hpi
          by_cases hix : i = nx
          · subst hix
            simp only [alookup_aset_eq, hnxq]
            obtain ⟨l, s, v, nb, qp, qn, oh, ot, vp⟩ := nxq
            dsimp only at hnxprev ⊢
            rw [hnxprev]
          · by_cases hip : i = pv
            · subst hip
              simp only [alookup_aset_ne _ _ _ _ hpvnx,
                alookup_aset_eq, hpv]
              obtain ⟨l, s, v, nb, qp, qn, oh, ot, vp⟩ := pvq
              dsimp only at hqn ⊢
              rw [hqn]
            · simp only [alookup_aset_ne _ _ _ _ hix,
                alookup_aset_ne _ _ _ _ hip,
                alookup_aset_ne _ _ _ _ hin]
  · have hopp2 := hopp
    simp only [Side.opp, Book.bestQ] at hopp2 hbest
    simp only [Book.bestVol] at hbva hbv0 hbvc
    have hworst2 := hworstA rfl
    have hne2 := hneA rfl
    have hcf : (Side.ASK.smul bqr.limit < Side.ASK.smul price) = False :=
      eq_false (lt_asymm hncross)
    rcases hqn : pvq.qnext with _ | nx
    · apply Exists.intro
      apply Exists.intro
      refine ⟨?_, ?_, ?_⟩
      · rw [on_limit_rests _ _ _ _ _ _ hopp]
        simp only [insert_order, newOrder, create_queue, qadd, rv,
          Book.getO, Book.setO, Book.getQ, Book.setQ, Book.bestQ,
          Book.setBestQ, Book.bestVol, Book.setBestVol, pushNotif,
          bind_ok_eq, bind_error_eq, pure_ok_eq, bind_assoc_eq,
          alookup_aset_eq, alookup_aset_ne _ _ _ _ hbne,
          alookup_aset_ne _ _ _ _ hpvf, alookup_aset_ne _ _ _ _ hpvnb,
          hbq, hpv, hfresh, hbest, hfind, hqn, Side.isBid_ASK,
          eq_self_iff_true, if_true, gt_iff_lt, hcf,
          Bool.false_eq_true, if_false, zero_add, hrq, hbva]
        rfl
      · simp only [on_cancel, get_order, qremove, rv, delete_queue,
          Book.getO, Book.setO, Book.getQ, Book.setQ, Book.bestQ,
          Book.setBestQ, Book.bestVol, Book.setBestVol, pushNotif,
          bind_ok_eq, bind_error_eq, pure_ok_eq, bind_assoc_eq,
          contains_addKey, eq_self_iff_true, if_true, alookup_aset_eq,
          alookup_aset_ne _ _ _ _ hpvnb, hq0b, beq_self_eq_true,
          Bool.false_eq_true, if_false, hrq0, hbvc, sub_self,
          roundDec_zero]
        apply dq_unlink_nb_none
        · exact alookup_aset_eq _ _ _
        · rfl
        · by_cases hbp : best = pv
          · subst hbp
            refine ⟨{ pvq with qnext := some b.next_qid }, ?_, ?_⟩
            · simp only [alookup_aset_ne _ _ _ _ hpvf]
              exact alookup_aset_eq _ _ _
            · dsimp only
              exact Ne.symm hplim
          · refine ⟨bqr, ?_, ?_⟩
            · simp only [alookup_aset_ne _ _ _ _ hbne,
                alookup_aset_ne _ _ _ _ hbp]
              exact hbq
            · dsimp only
              exact Ne.symm hblim
        · rfl
        · rfl
        · simp only [alookup_aset_ne _ _ _ _ hpvf]
          exact alookup_aset_eq _ _ _
        · simp only [dq_min_bid, Book.getQ, Book.setQ, bind_ok_eq,
            bind_error_eq, pure_ok_eq, alookup_aset_eq,
            alookup_aset_ne _ _ _ _ hpvnb, Side.isBid_ASK,
            Bool.false_eq_true, if_false, false_and]
          apply dq_max_ask_bind
          · simp only [Book.setQ, alookup_aset_ne _ _ _ _ hpvnb]
            exact alookup_aset_eq _ _ _
          · rfl
          · simp only [Book.setQ]
            exact alookup_aset_eq _ _ _
          · simp only [dq_del_entry, Book.getQ, Book.setQ, Book.getO,
              Book.setO, pushNotif, bind_ok_eq, bind_error_eq,
              pure_ok_eq, alookup_aset_eq,
              alookup_aset_ne _ _ _ _ hpvnb, Side.isBid_ASK,
              Bool.not_false, Bool.false_eq_true, if_false, false_and,
              eq_self_iff_true, if_true, true_and, and_true,
              contains_addKey, sub_self, delKey_addKey _ _ homf,
              aerase_aset_fresh _ _ _ hfresh]
            rfl
      · unfold restores
        refine ⟨rfl, rfl, rfl, hbest.symm, rfl, rfl, rfl, ?_, ?_⟩
        · by_cases hwm : b.max_ask < price
          · rw [max_eq_left (le_of_lt hwm), if_pos rfl]
            exact hworst2 hwm
          · have hlt : price < b.max_ask :=
              lt_of_le_of_ne (not_lt.mp hwm) hne2
            rw [max_eq_right (le_of_lt hlt), if_neg hne2]
        · intro p i hpi
          have hin := hqregf p i hpi
          by_cases hip : i = pv
          · subst hip
            simp only [alookup_aset_eq, hpv]
            obtain ⟨l, s, v, nb, qp, qn, oh, ot, vp⟩ := pvq
            dsimp only at hqn ⊢
            rw [hqn]
          · simp only [alookup_aset_ne _ _ _ _ hip,
              alookup_aset_ne _ _ _ _ hin]
    · obtain ⟨nxq, hnxq, hnxprev, hnxpv, hnxreg⟩ := hqnx nx hqn
      have hnxf : nx ≠ b.next_qid := hqheapf nx nxq hnxq
      have hnbx : b.next_qid ≠ nx := Ne.symm hnxf
      have hpvnx : pv ≠ nx := Ne.symm hnxpv
      have hnxlim : nxq.limit ≠ price := by
        intro hh
        rw [hh, hfresh] at hnxreg
        exact Option.noConfusion hnxreg
      apply Exists.intro
      apply Exists.intro
      refine ⟨?_, ?_, ?_⟩
      · rw [on_limit_rests _ _ _ _ _ _ hopp]
        simp only [insert_order, newOrder, create_queue, qadd, rv,
          Book.getO, Book.setO, Book.getQ, Book.setQ, Book.bestQ,
          Book.setBestQ, Book.bestVol, Book.setBestVol, pushNotif,
          bind_ok_eq, bind_error_eq, pure_ok_eq, bind_assoc_eq,
          alookup_aset_eq, alookup_aset_ne _ _ _ _ hbne,
          alookup_aset_ne _ _ _ _ hpvf, alookup_aset_ne _ _ _ _ hpvnb,
          alookup_aset_ne _ _ _ _ hnxf, alookup_aset_ne _ _ _ _ hnbx,
          hnxq,
          hbq, hpv, hfresh, hbest, hfind, hqn, Side.isBid_ASK,
          eq_self_iff_true, if_true, gt_iff_lt, hcf,
          Bool.false_eq_true, if_false, zero_add, hrq, hbva]
        rfl
      · simp only [on_cancel, get_order, qremove, rv, delete_queue,
          Book.getO, Book.setO, Book.getQ, Book.setQ, Book.bestQ,
          Book.setBestQ, Book.bestVol, Book.setBestVol, pushNotif,
          bind_ok_eq, bind_error_eq, pure_ok_eq, bind_assoc_eq,
          contains_addKey, eq_self_iff_true, if_true, alookup_aset_eq,
          alookup_aset_ne _ _ _ _ hpvnb, hq0b, beq_self_eq_true,
          Bool.false_eq_true, if_false, hrq0, hbvc, sub_self,
          roundDec_zero]
        apply dq_unlink_nb_some
        · exact alookup_aset_eq _ _ _
        · rfl
        · by_cases hbp : best = pv
          · subst hbp
            refine ⟨{ pvq with qnext := some b.next_qid }, ?_, ?_⟩
            · simp only [alookup_aset_ne _ _ _ _ hpvf]
              exact alookup_aset_eq _ _ _
            · dsimp only
              exact Ne.symm hplim
          · by_cases hbx : best = nx
            · subst hbx
              refine ⟨{ nxq with qprev := some b.next_qid }, ?_, ?_⟩
              · simp only [alookup_aset_ne _ _ _ _ hnxf,
                  alookup_aset_ne _ _ _ _ hnxpv]
                exact alookup_aset_eq _ _ _
              · dsimp only
                exact Ne.symm hnxlim
            · refine ⟨bqr, ?_, ?_⟩
              · simp only [alookup_aset_ne _ _ _ _ hbne,
                  alookup_aset_ne _ _ _ _ hbp,
                  alookup_aset_ne _ _ _ _ hbx]
                exact hbq
              · dsimp only
                exact Ne.symm hblim
        · rfl
        · rfl
        · exact hnxpv
        · simp only [alookup_aset_ne _ _ _ _ hnxf,
            alookup_aset_ne _ _ _ _ hnxpv]
          exact alookup_aset_eq _ _ _
        · simp only [alookup_aset_ne _ _ _ _ hpvf]
          exact alookup_aset_eq _ _ _
        · simp only [dq_min_bid, Book.getQ, Book.setQ, bind_ok_eq,
            bind_error_eq, pure_ok_eq, alookup_aset_eq,
            alookup_aset_ne _ _ _ _ hpvnb,
            alookup_aset_ne _ _ _ _ hnbx, Side.isBid_ASK,
            Bool.false_eq_true, if_false, false_and]
          apply dq_max_ask_bind
          · simp only [Book.setQ, alookup_aset_ne _ _ _ _ hnbx,
              alookup_aset_ne _ _ _ _ hpvnb]
            exact alookup_aset_eq _ _ _
          · rfl
          · simp only [Book.setQ, alookup_aset_ne _ _ _ _ hpvnx]
            exact alookup_aset_eq _ _ _
          · simp only [dq_del_entry, Book.getQ, Book.setQ, Book.getO,
              Book.setO, pushNotif, bind_ok_eq, bind_error_eq,
              pure_ok_eq, alookup_aset_eq,
              alookup_aset_ne _ _ _ _ hpvnb,
              alookup_aset_ne _ _ _ _ hnbx, Side.isBid_ASK,
              Bool.not_false, Bool.false_eq_true, if_false, false_and,
              eq_self_iff_true, if_true, true_and, and_true,
              contains_addKey, sub_self, delKey_addKey _ _ homf,
              aerase_aset_fresh _ _ _ hfresh]
            rfl
      · unfold restores
        refine ⟨rfl, rfl, rfl, hbest.symm, rfl, rfl, rfl, ?_, ?_⟩
        · by_cases hwm : b.max_ask < price
          · rw [max_eq_left (le_of_lt hwm), if_pos rfl]
            exact hworst2 hwm
          · have hlt : price < b.max_ask :=
              lt_of_le_of_ne (not_lt.mp hwm) hne2
            rw [max_eq_right (le_of_lt hlt), if_neg hne2]
        · intro p i hpi
          have hin := hqregf p i hpi
          by_cases hix : i = nx
          · subst hix
            simp only [alookup_aset_eq, hnxq]
            obtain ⟨l, s, v, nb, qp, qn, oh, ot, vp⟩ := nxq
            dsimp only at hnxprev ⊢
            rw [hnxprev]
          · by_cases hip : i = pv
            · subst hip
              simp only [alookup_aset_ne _ _ _ _ hpvnx,
                alookup_aset_eq, hpv]
              obtain ⟨l, s, v, nb, qp, qn, oh, ot, vp⟩ := pvq
              dsimp only at hqn ⊢
              rw [hqn]
            · simp only [alookup_aset_ne _ _ _ _ hix,
                alookup_aset_ne _ _ _ _ hip,
                alookup_aset_ne _ _ _ _ hin]

/-- C7: for every book satisfying the documented invariants (resolvable
indices, fresh counters, exact decimal volumes and quantities, ladder
double links, extremum characterisation, non-None mid when a side is
occupied) and every strictly non-crossing on_limit that rests an order,
an immediate on_cancel of the new order's id succeeds and restores the
price index, the order index, both best-queue pointers, both best
volumes, both side extrema and the full record of every pre-existing
queue (hence all queue volumes and ladder links), modulo timestamps,
mids and the notification log. -/
theorem C7_limit_cancel_restores (b : Book) (side : Side)
    (quantity price : ℚ) (cl : String) (fuel : ℕ)
    (hopp : ∀ i, b.bestQ side.opp = some i →
      ∃ r, alookup b.qheap i = some r
        ∧ side.smul price < side.smul r.limit)
    (homf : b.order_map.contains b.next_oid = false)
    (hq0 : quantity ≠ 0)
    (hp0 : (0 : ℚ) ≤ price)
    (hrq : roundDec 2 quantity = quantity)
    (hbva : b.instr.adjust_quantity (b.bestVol side + quantity)
      = b.bestVol side + quantity)
    (hbv0 : b.instr.adjust_quantity (b.bestVol side) = b.bestVol side)
    (hqheapf : ∀ i r, alookup b.qheap i = some r → i ≠ b.next_qid)
    (hqregf : ∀ p i, alookup b.queues p = some i → i ≠ b.next_qid)
    (hmid : b.bestQ side.opp ≠ none → ∃ m, b.curr_mid = some m)
    (hemin : b.bestQ side = none → side = Side.BID → b.min_bid = ⊤)
    (hemax : b.bestQ side = none → side = Side.ASK → b.max_ask = 0)
    (hE : ∀ qid, alookup b.queues price = some qid →
      ∃ qr, alookup b.qheap qid = some qr
        ∧ (∃ h0, qr.ohead = some h0 ∧ h0 ≠ b.next_oid)
        ∧ (∃ t0 trec, qr.otail = some t0
            ∧ alookup b.orders t0 = some trec ∧ t0 ≠ b.next_oid)
        ∧ qr.volume ≠ 0
        ∧ roundDec qr.volume_precision (qr.volume + quantity)
            = qr.volume + quantity
        ∧ roundDec qr.volume_precision qr.volume = qr.volume)
    (hB : ∀ best, b.bestQ side = some best →
      ∃ bqr, alookup b.qheap best = some bqr
        ∧ alookup b.queues bqr.limit = some best
        ∧ bqr.qprev = none
        ∧ (side = Side.BID → b.min_bid ≤ (↑bqr.limit : WithTop ℚ))
        ∧ (side = Side.ASK → bqr.limit ≤ b.max_ask))
    (hF3 : alookup b.queues price = none → ∀ best bqr,
      b.bestQ side = some best → alookup b.qheap best = some bqr →
      side.smul price < side.smul bqr.limit →
      ∃ pv pvq,
        find_prev_queue b.instr b.queues price side fuel = some pv
        ∧ alookup b.qheap pv = some pvq
        ∧ alookup b.queues pvq.limit = some pv
        ∧ (∀ nx, pvq.qnext = some nx →
            ∃ nxq, alookup b.qheap nx = some nxq
              ∧ nxq.qprev = some pv ∧ nx ≠ pv
              ∧ alookup b.queues nxq.limit = some nx)
        ∧ (side = Side.BID →
            ((↑price : WithTop ℚ) < b.min_bid →
              (↑pvq.limit : WithTop ℚ) = b.min_bid)
            ∧ ((↑price : WithTop ℚ)) ≠ b.min_bid)
        ∧ (side = Side.ASK →
            (b.max_ask < price → pvq.limit = b.max_ask)
            ∧ price ≠ b.max_ask)) :
    ∃ b1 b2, on_limit b side quantity price cl fuel = .ok b1
      ∧ on_cancel b1 b.next_oid = .ok b2 ∧ restores b b2 := by
  cases halook : alookup b.queues price with
  | some qid =>
      obtain ⟨qr, hqr, ⟨h0, hoh, hfh⟩, ⟨t0, trec, hot, htrec, hft⟩,
        hvol0, hrva, hrv0⟩ := hE qid halook
      exact insert_cancel_existing b side quantity price cl fuel qid qr
        h0 t0 trec hopp halook hqr hoh hot htrec hfh hft homf hq0 hvol0
        hrva hrv0 hbva hbv0
  | none =>
      cases hbq : b.bestQ side with
      | none =>
          exact insert_cancel_fresh_empty b side quantity price cl fuel
            hopp halook hbq homf hq0 hqheapf hqregf hmid (hemin hbq)
            (hemax hbq) hp0 hrq hbva hbv0
      | some best =>
          obtain ⟨bqr, hbqr, hbreg, hbqprev, hminle, hmaxle⟩ :=
            hB best hbq
          rcases lt_trichotomy (side.smul price) (side.smul bqr.limit)
            with hlt | heq | hgt
          · obtain ⟨pv, pvq, hfind, hpv, hpvreg, hqnx, hwB, hwA⟩ :=
              hF3 halook best bqr hbq hbqr hlt
            exact insert_cancel_fresh_interior b side quantity price cl
              fuel best pv bqr pvq hopp halook hbq hbqr hbreg hlt hfind
              hpv hpvreg hqnx (fun hs hh => (hwB hs).1 hh)
              (fun hs hh => (hwA hs).1 hh) (fun hs => (hwB hs).2)
              (fun hs => (hwA hs).2) homf hq0 hqheapf hqregf hrq hbva
              hbv0
          · have hpl : price = bqr.limit := Side.smul_inj side heq
            rw [hpl, hbreg] at halook
            exact Option.noConfusion halook
          · exact insert_cancel_fresh_best b side quantity price cl fuel
              best bqr hopp halook hbq hbqr hbqprev hgt hminle hmaxle
              homf hq0 hqheapf hqregf hmid hrq hbva hbv0

/-- Witness for C7 at a concrete book: a BID 1@5 inserted into the
existing queue of c7WB and immediately cancelled. -/
theorem C7_witness :
    ∃ b1 b2, on_limit c7WB Side.BID 1 5 "carol" 3 = .ok b1
      ∧ on_cancel b1 c7WB.next_oid = .ok b2
      ∧ restores c7WB b2 := by
  apply C7_limit_cancel_restores
  · intro i hi
    rw [show c7WB.bestQ Side.BID.opp = none from by decide] at hi
    exact Option.noConfusion hi
  · decide
  · decide
  · decide
  · decide
  · decide
  · decide
  · intro i r hir hieq
    subst hieq
    rw [show alookup c7WB.qheap c7WB.next_qid = none
      from by decide] at hir
    exact Option.noConfusion hir
  · intro p i hpi hieq
    subst hieq
    by_cases hp : p = 5
    · subst hp
      rw [show alookup c7WB.queues (5 : ℚ) = some 0
        from by decide] at hpi
      exact absurd hpi (by decide)
    · simp only [c7WB, cancelWB, alookup, if_neg hp] at hpi
      exact Option.noConfusion hpi
  · intro h
    exact absurd (by decide : c7WB.bestQ Side.BID.opp = none) h
  · intro h
    exact absurd h (by decide)
  · intro h
    exact absurd h (by decide)
  · intro qid hq
    rw [show alookup c7WB.queues (5 : ℚ) = some 0
      from by decide] at hq
    injection hq with h2
    subst h2
    exact ⟨cwQueue, by decide, ⟨0, by decide, by decide⟩,
      ⟨0, cwOrder, by decide, by decide, by decide⟩, by decide,
      by decide, by decide⟩
  · intro best hb
    rw [show c7WB.bestQ Side.BID = some 0 from by decide] at hb
    injection hb with h2
    subst h2
    exact ⟨cwQueue, by decide, by decide, by decide,
      fun _ => by decide, fun hs => absurd hs (by decide)⟩
  · intro hn
    exact absurd hn (by decide)

/-- Quantitative account of the on_cancel volume divergence: on_cancel
of a live resting order from a book whose best_volumes match the
per-side queue-volume sums (and whose indices are well formed, with
exact arithmetic) leaves
best_volumes[side] = Σ q.volume − (quantity − remaining): equality holds
exactly when the cancelled order had no partial fills, and is off by the
already-filled portion otherwise.  The opposite side's equality is
preserved. -/
theorem C3_amended_cancel_volume (b b1 : Book) (oid : Nat) (o : OrderRec)
    (qid : Nat) (qr : QueueRec)
    (hIn : b.order_map.contains oid = true)
    (ho : alookup b.orders oid = some o)
    (hlive : o.remaining ≠ 0)
    (hqref : o.queue = some qid)
    (hqr : alookup b.qheap qid = some qr)
    (hside : qr.side = o.side)
    (hreg : alookup b.queues qr.limit = some qid)
    (hkeys : (b.queues.map Prod.fst).Nodup)
    (hvals : (b.queues.map Prod.snd).Nodup)
    (hrv : rv qr (qr.volume - o.remaining) = qr.volume - o.remaining)
    (hadj : b.instr.adjust_quantity (b.bestVol o.side - o.quantity)
      = b.bestVol o.side - o.quantity)
    (hinvs : b.bestVol o.side = sideVolume b o.side)
    (hinvo : b.bestVol o.side.opp = sideVolume b o.side.opp)
    (h : on_cancel b oid = .ok b1) :
    b1.bestVol o.side
      = sideVolume b1 o.side - (o.quantity - o.remaining)
    ∧ b1.bestVol o.side.opp = sideVolume b1 o.side.opp := by
  have hoppne : o.side.opp ≠ o.side := Side.opp_ne o.side
  unfold on_cancel get_order Book.getO Book.getQ at h
  rw [if_pos hIn] at h
  simp only [ho, bind_ok_eq] at h
  simp only [hqref] at h
  cases hrem : qremove b qid oid with
  | error e =>
      rw [hrem] at h
      simp only [bind_error_eq] at h
      exact Except.noConfusion h
  | ok bR =>
      rw [hrem] at h
      simp only [bind_ok_eq] at h
      obtain ⟨hRi, hRqs, hRom, hRn, hRbvb, hRbva, hRbqb, hRbqa, hRmb,
        hRma, hRno, hRnq, hRother, qr1, hRq1, hR1side, hR1lim, hR1prec,
        hR1nb, hR1vol⟩ := qremove_spec b bR qid oid o qr hqr ho hrem
      have hbeq : (o.remaining == 0) = false :=
        beq_eq_false_iff_ne.mpr hlive
      have hvol1 : qr1.volume = qr.volume - o.remaining := by
        rw [hR1vol, hbeq]
        simpa using hrv
      have hbvR : ∀ s, bR.bestVol s = b.bestVol s := by
        intro s
        cases s
        · exact hRbvb
        · exact hRbva
      set bV := bR.setBestVol o.side
        (bR.instr.adjust_quantity (bR.bestVol o.side - o.quantity))
        with hbVdef
      have hVqs : bV.queues = b.queues := by
        rw [hbVdef, (setBestVol_fields bR o.side _).2.1, hRqs]
      have hVheap : bV.qheap = bR.qheap := by
        rw [hbVdef]
        exact (setBestVol_fields bR o.side _).2.2.1
      have hVom : bV.order_map = b.order_map := by
        rw [hbVdef, (setBestVol_fields bR o.side _).2.2.2.2.1, hRom]
      have hql : alookup bV.qheap qid = some qr1 := by
        rw [hVheap]
        exact hRq1
      simp only [hql, bind_ok_eq] at h
      have hVbest : bV.bestVol o.side = b.bestVol o.side - o.quantity := by
        rw [hbVdef, bestVol_setBestVol_self, hRi, hbvR o.side]
        exact hadj
      have hVbestOpp : bV.bestVol o.side.opp = b.bestVol o.side.opp := by
        rw [hbVdef, bestVol_setBestVol_opp, hbvR]
      have hdeltaS : entrySum b.queues bR.qheap o.side
          = sideVolume b o.side - o.remaining := by
        rw [entrySum_pointwise_delta b.queues bR.qheap b.qheap qid qr qr1
          o.side hqr hRq1 hR1side hRother (alookup_mem _ _ _ hreg) hvals]
        rw [if_pos hside, hvol1]
        unfold sideVolume
        ring
      have hdeltaO : entrySum b.queues bR.qheap o.side.opp
          = sideVolume b o.side.opp := by
        rw [entrySum_pointwise_delta b.queues bR.qheap b.qheap qid qr qr1
          o.side.opp hqr hRq1 hR1side hRother (alookup_mem _ _ _ hreg)
          hvals]
        rw [if_neg (fun hh => hoppne (by rw [← hh, hside]))]
        unfold sideVolume
        ring
      have hq1sideS : qr1.side = o.side := hR1side.trans hside
      have hq1sideO : ¬ qr1.side = o.side.opp := by
        intro hh
        exact hoppne (hq1sideS.symm.trans hh).symm
      by_cases hz : qr.volume - o.remaining = 0
      · have hzb : (qr1.volume == 0) = true := by
          rw [hvol1]
          exact beq_iff_eq.mpr hz
        rw [if_pos hzb] at h
        cases hdel : delete_queue bV o.side qid with
        | error e =>
            rw [hdel] at h
            simp only [bind_error_eq] at h
            exact Except.noConfusion h
        | ok bD =>
            rw [hdel] at h
            simp only [bind_ok_eq] at h
            obtain ⟨hDi, hDqs, hDom, hDo, hDn, hDbvb, hDbva, hDno, hDnq,
              hDvs⟩ := delete_queue_vs bV bD o.side qid qr1 hql hdel
            have homD : bD.order_map = b.order_map := hDom.trans hVom
            rw [if_pos (show bD.order_map.contains oid = true by
              rw [homD]; exact hIn)] at h
            simp only [pure_ok_eq] at h
            replace h := ((Except.ok.injEq _ _).mp h)
            subst h
            have hbv1 : ∀ s,
                (pushNotif { bD with order_map := delKey bD.order_map oid }
                  (infosNotif (.client o.owner) "Cancelled" oid o)).bestVol
                  s = bD.bestVol s := by
              intro s
              cases s <;> rfl
            have hbvD : ∀ s, bD.bestVol s = bV.bestVol s := by
              intro s
              cases s
              · exact hDbvb
              · exact hDbva
            have hq1 : (pushNotif
                { bD with order_map := delKey bD.order_map oid }
                (infosNotif (.client o.owner) "Cancelled" oid o)).queues
                = aerase b.queues qr.limit := by
              show bD.queues = aerase b.queues qr.limit
              rw [hDqs, hVqs, hR1lim]
            have hheap1 : heapVS
                (pushNotif { bD with order_map := delKey bD.order_map oid }
                  (infosNotif (.client o.owner) "Cancelled" oid o)).qheap
                bR.qheap := by
              show heapVS bD.qheap bR.qheap
              rw [← hVheap]
              exact hDvs
            have hsv1 : ∀ s, sideVolume (pushNotif
                { bD with order_map := delKey bD.order_map oid }
                (infosNotif (.client o.owner) "Cancelled" oid o)) s
                = entrySum b.queues bR.qheap s
                  - (if qr1.side = s then qr1.volume else 0) := by
              intro s
              unfold sideVolume
              rw [hq1, entrySum_congr _ _ _ s hheap1,
                entrySum_aerase b.queues bR.qheap qr.limit qid qr1 s hreg
                  hkeys hRq1]
            constructor
            · rw [hbv1, hbvD, hVbest, hinvs, hsv1, hdeltaS,
                if_pos hq1sideS, hvol1]
              linarith [hz]
            · rw [hbv1, hbvD, hVbestOpp, hinvo, hsv1, hdeltaO,
                if_neg hq1sideO]
              ring
      · have hzb : (qr1.volume == 0) = false := by
          rw [hvol1]
          exact beq_eq_false_iff_ne.mpr hz
        rw [if_neg (by rw [hzb]; exact Bool.false_ne_true)] at h
        simp only [pure_ok_eq, bind_ok_eq] at h
        rw [if_pos (show bV.order_map.contains oid = true by
          rw [hVom]; exact hIn)] at h
        simp only [pure_ok_eq, bind_ok_eq] at h
        replace h := ((Except.ok.injEq _ _).mp h)
        subst h
        have hbv1 : ∀ s,
            (pushNotif { bV with order_map := delKey bV.order_map oid }
              (infosNotif (.client o.owner) "Cancelled" oid o)).bestVol s
              = bV.bestVol s := by
          intro s
          cases s <;> rfl
        have hsv1 : ∀ s, sideVolume (pushNotif
            { bV with order_map := delKey bV.order_map oid }
            (infosNotif (.client o.owner) "Cancelled" oid o)) s
            = entrySum b.queues bR.qheap s := by
          intro s
          unfold sideVolume
          show entrySum bV.queues bV.qheap s = _
          rw [hVqs, hVheap]
        constructor
        · rw [hbv1, hVbest, hinvs, hsv1, hdeltaS]
          ring
        · rw [hbv1, hVbestOpp, hinvo, hsv1, hdeltaO]

/-- Concrete instance of the cancel volume law (an unfilled resting
order, so the deficit quantity − remaining is zero and the sum equality
is preserved by on_cancel). -/
theorem C3_amended_witness :
    on_cancel cancelWB 0 = .ok cancelWB1
    ∧ cancelWB1.bestVol Side.BID
        = sideVolume cancelWB1 Side.BID - ((2 : ℚ) - 2)
    ∧ cancelWB1.bestVol Side.ASK = sideVolume cancelWB1 Side.ASK := by
  have hrun : on_cancel cancelWB 0 = .ok cancelWB1 := by decide
  have hm := C3_amended_cancel_volume cancelWB cancelWB1 0 cwOrder 0
    cwQueue (by decide) (by decide) (by decide) (by decide) (by decide)
    (by decide) (by decide) (by decide) (by decide) (by decide)
    (by decide) (by decide) (by decide) hrun
  exact ⟨hrun, hm.1, hm.2⟩

/-- C8: behaviour of _update_mid.  Both sides empty: prev and curr become
null.  Only bids: curr becomes adjust_price(best_bid + half tick), prev
untouched.  Both sides with the naive mid on the tick grid: the published
mid is the naive mid nudged half a tick away from prev_mid (re-rounded,
which is the identity when the half tick is exactly representable), and
never lies on the tick grid. -/
theorem C8_update_mid_spec (b : Book) :
    (b.bq_ask = none → b.bq_bid = none →
      update_mid b = .ok { b with prev_mid := none, curr_mid := none })
    ∧
    (∀ bid bq, b.bq_ask = none → b.bq_bid = some bid →
      alookup b.qheap bid = some bq →
      update_mid b = .ok { b with
        curr_mid := some (b.instr.adjust_price
          (bq.limit + (1/2) * b.instr.tick_size)) })
    ∧
    (∀ ask bid aq bq p, b.bq_ask = some ask → b.bq_bid = some bid →
      alookup b.qheap ask = some aq → alookup b.qheap bid = some bq →
      b.curr_mid = some p → b.instr.tick_size ≠ 0 →
      Exact b.instr.precision.price_precision ((1/2) * b.instr.tick_size) →
      isDivisible (b.instr.adjust_price ((1/2) * (aq.limit + bq.limit)))
          b.instr.tick_size = true →
      update_mid b = .ok { b with
        prev_mid := some p,
        curr_mid := some
          (if b.instr.adjust_price ((1/2) * (aq.limit + bq.limit)) < p then
            b.instr.adjust_price ((1/2) * (aq.limit + bq.limit))
              + (1/2) * b.instr.tick_size
          else
            b.instr.adjust_price ((1/2) * (aq.limit + bq.limit))
              - (1/2) * b.instr.tick_size) }
      ∧ isDivisible
          (if b.instr.adjust_price ((1/2) * (aq.limit + bq.limit)) < p then
            b.instr.adjust_price ((1/2) * (aq.limit + bq.limit))
              + (1/2) * b.instr.tick_size
          else
            b.instr.adjust_price ((1/2) * (aq.limit + bq.limit))
              - (1/2) * b.instr.tick_size) b.instr.tick_size = false) := by
  refine ⟨?_, ?_, ?_⟩
  · intro ha hb
    simp only [update_mid, ha, hb]
    rfl
  · intro bid bq ha hb hq
    simp only [update_mid, Book.getQ, ha, hb, hq, bind_ok_eq]
    rfl
  · intro ask bid aq bq p ha hb haq hbq hp ht hhalf hdiv
    have hmex : Exact b.instr.precision.price_precision
        (b.instr.adjust_price ((1/2) * (aq.limit + bq.limit))) :=
      exact_roundDec _ _
    have hplus : b.instr.adjust_price
        (b.instr.adjust_price ((1/2) * (aq.limit + bq.limit))
          + (1/2) * b.instr.tick_size)
        = b.instr.adjust_price ((1/2) * (aq.limit + bq.limit))
          + (1/2) * b.instr.tick_size :=
      roundDec_eq_of_exact _ _ (hmex.add hhalf)
    have hminus : b.instr.adjust_price
        (b.instr.adjust_price ((1/2) * (aq.limit + bq.limit))
          - (1/2) * b.instr.tick_size)
        = b.instr.adjust_price ((1/2) * (aq.limit + bq.limit))
          - (1/2) * b.instr.tick_size :=
      roundDec_eq_of_exact _ _ (hmex.sub hhalf)
    refine ⟨?_, ?_⟩
    · simp only [update_mid, Book.getQ, ha, hb, haq, hbq, hp, pure_ok_eq,
        bind_ok_eq, hdiv, if_true]
      split
      · rw [hplus]
      · rw [hminus]
    · rcases isDivisible_half_shift_false _ _ ht hdiv with ⟨h1, h2⟩
      split
      · exact h1
      · exact h2

/-- Witness for C8 at the three concrete books. -/
theorem C8_witness :
    (update_mid emptyBook
      = .ok { emptyBook with prev_mid := none, curr_mid := none })
    ∧ (update_mid bidOnlyBook = .ok { bidOnlyBook with
        curr_mid := some (bidOnlyBook.instr.adjust_price
          (bidOnlyQ.limit + (1/2) * bidOnlyBook.instr.tick_size)) })
    ∧ (update_mid bothBook = .ok { bothBook with
        prev_mid := some (13/2),
        curr_mid := some
          (if bothBook.instr.adjust_price
              ((1/2) * (bothQa.limit + bothQb.limit)) < 13/2 then
            bothBook.instr.adjust_price
              ((1/2) * (bothQa.limit + bothQb.limit))
              + (1/2) * bothBook.instr.tick_size
          else
            bothBook.instr.adjust_price
              ((1/2) * (bothQa.limit + bothQb.limit))
              - (1/2) * bothBook.instr.tick_size) }
      ∧ isDivisible
          (if bothBook.instr.adjust_price
              ((1/2) * (bothQa.limit + bothQb.limit)) < 13/2 then
            bothBook.instr.adjust_price
              ((1/2) * (bothQa.limit + bothQb.limit))
              + (1/2) * bothBook.instr.tick_size
          else
            bothBook.instr.adjust_price
              ((1/2) * (bothQa.limit + bothQb.limit))
              - (1/2) * bothBook.instr.tick_size)
          bothBook.instr.tick_size = false) :=
  ⟨(C8_update_mid_spec emptyBook).1 rfl rfl,
   (C8_update_mid_spec bidOnlyBook).2.1 0 bidOnlyQ rfl rfl (by decide),
   (C8_update_mid_spec bothBook).2.2 1 0 bothQa bothQb (13/2) rfl rfl
     (by decide) (by decide) rfl (by decide) (by decide) (by decide)⟩

/-- The one-tick scan of _find_prev_queue: when some probe among the
first n+1 grid steps holds a queue, the scan returns the first such hit
within fuel n+1.  Tick and start price are assumed exact at the price
precision, so adjust_price leaves every probe on the grid. -/
theorem find_prev_queue_spec (instr : Instrument)
    (qs : List (ℚ × Nat)) (side : Side)
    (ht : Exact instr.precision.price_precision instr.tick_size) :
    ∀ (n : ℕ) (limit : ℚ),
      Exact instr.precision.price_precision limit →
      (alookup qs
        (limit + ((n : ℚ) + 1) * side.smul instr.tick_size)).isSome →
      ∃ qid k, find_prev_queue instr qs limit side (n + 1) = some qid ∧
        1 ≤ k ∧ k ≤ n + 1 ∧
        alookup qs
          (limit + (k : ℚ) * side.smul instr.tick_size) = some qid ∧
        ∀ j : ℕ, 1 ≤ j → j < k →
          alookup qs
            (limit + (j : ℚ) * side.smul instr.tick_size) = none := by
  intro n
  induction n with
  | zero =>
      intro limit hlim hsome
      have hcur : instr.adjust_price (limit + side.smul instr.tick_size)
          = limit + side.smul instr.tick_size :=
        adjust_price_exact _ _ (hlim.add (exact_smul side ht))
      have hone : limit + (((0 : ℕ) : ℚ) + 1) * side.smul instr.tick_size
          = limit + side.smul instr.tick_size := by push_cast; ring
      rw [hone] at hsome
      obtain ⟨q, hq⟩ := Option.isSome_iff_exists.mp hsome
      refine ⟨q, 1, ?_, le_refl 1, le_refl 1, ?_, ?_⟩
      · show (match alookup qs
            (instr.adjust_price (limit + side.smul instr.tick_size)) with
          | some q => some q
          | none => find_prev_queue instr qs
              (instr.adjust_price (limit + side.smul instr.tick_size))
              side 0) = some q
        rw [hcur, hq]
      · rw [show limit + ((1 : ℕ) : ℚ) * side.smul instr.tick_size
            = limit + side.smul instr.tick_size by push_cast; ring]
        exact hq
      · intro j hj1 hj
        omega
  | succ m ih =>
      intro limit hlim hsome
      have hcurex : Exact instr.precision.price_precision
          (limit + side.smul instr.tick_size) :=
        hlim.add (exact_smul side ht)
      have hcur : instr.adjust_price (limit + side.smul instr.tick_size)
          = limit + side.smul instr.tick_size :=
        adjust_price_exact _ _ hcurex
      cases halook : alookup qs
          (limit + side.smul instr.tick_size) with
      | some q =>
          refine ⟨q, 1, ?_, le_refl 1, by omega, ?_, ?_⟩
          · show (match alookup qs
                (instr.adjust_price
                  (limit + side.smul instr.tick_size)) with
              | some q => some q
              | none => find_prev_queue instr qs
                  (instr.adjust_price
                    (limit + side.smul instr.tick_size))
                  side (m + 1)) = some q
            rw [hcur, halook]
          · rw [show limit + ((1 : ℕ) : ℚ) * side.smul instr.tick_size
                = limit + side.smul instr.tick_size by push_cast; ring]
            exact halook
          · intro j hj1 hj
            omega
      | none =>
          have hsome2 : (alookup qs
              ((limit + side.smul instr.tick_size)
                + ((m : ℚ) + 1) * side.smul instr.tick_size)).isSome := by
            have heq : (limit + side.smul instr.tick_size)
                + ((m : ℚ) + 1) * side.smul instr.tick_size
                = limit + (((m + 1 : ℕ) : ℚ) + 1)
                  * side.smul instr.tick_size := by push_cast; ring
            rw [heq]
            exact hsome
          obtain ⟨qid, k, hfind, hk1, hkle, hlook, hfirst⟩ :=
            ih (limit + side.smul instr.tick_size) hcurex hsome2
          refine ⟨qid, k + 1, ?_, by omega, by omega, ?_, ?_⟩
          · show (match alookup qs
                (instr.adjust_price
                  (limit + side.smul instr.tick_size)) with
              | some q => some q
              | none => find_prev_queue instr qs
                  (instr.adjust_price
                    (limit + side.smul instr.tick_size))
                  side (m + 1)) = some qid
            rw [hcur, halook, hfind]
          · rw [show limit + ((k + 1 : ℕ) : ℚ) * side.smul instr.tick_size
                = (limit + side.smul instr.tick_size)
                  + (k : ℚ) * side.smul instr.tick_size by push_cast; ring]
            exact hlook
          · intro j hj1 hj
            rcases Nat.eq_or_lt_of_le hj1 with hj2 | hj2
            · rw [show limit + ((j : ℕ) : ℚ) * side.smul instr.tick_size
                  = limit + side.smul instr.tick_size by
                rw [← hj2]; push_cast; ring]
              exact halook
            · have hj3 : 1 ≤ j - 1 := by omega
              have hj4 : j - 1 < k := by omega
              have := hfirst (j - 1) hj3 hj4
              rw [show (limit + side.smul instr.tick_size)
                  + ((j - 1 : ℕ) : ℚ) * side.smul instr.tick_size
                  = limit + ((j : ℕ) : ℚ) * side.smul instr.tick_size
                  from ?_] at this
              · exact this
              · have : ((j - 1 : ℕ) : ℚ) = (j : ℚ) - 1 := by
                  push_cast [Nat.cast_sub (by omega : 1 ≤ j)]
                  ring
                rw [this]
                ring

/-- C9: in _create_queue's non-best branch (best_queue[side] exists at a
strictly better grid-aligned limit, no queue at the probed limit), the
one-tick scan of _find_prev_queue terminates within the tick distance to
the best limit and returns a queue that exists in queues at the first
occupied price on the walked path. -/
theorem C9_find_prev_queue_terminates (b : Book) (side : Side)
    (limit : ℚ) (n : ℕ) (bqid : Nat) (bqr : QueueRec)
    (ht : Exact b.instr.precision.price_precision b.instr.tick_size)
    (hlim : Exact b.instr.precision.price_precision limit)
    (hbest : b.bestQ side = some bqid)
    (hbq : alookup b.qheap bqid = some bqr)
    (hreg : alookup b.queues bqr.limit = some bqid)
    (hdist : bqr.limit
      = limit + ((n : ℚ) + 1) * side.smul b.instr.tick_size) :
    ∃ qid k, find_prev_queue b.instr b.queues limit side (n + 1)
        = some qid ∧
      1 ≤ k ∧ k ≤ n + 1 ∧
      alookup b.queues
        (limit + (k : ℚ) * side.smul b.instr.tick_size) = some qid ∧
      ∀ j : ℕ, 1 ≤ j → j < k →
        alookup b.queues
          (limit + (j : ℚ) * side.smul b.instr.tick_size) = none := by
  apply find_prev_queue_spec b.instr b.queues side ht n limit hlim
  rw [← hdist, hreg]
  rfl

/-- Witness for C9: in bothBook the scan from bid limit 2 (two ticks
below the best bid 4) finds the best-bid queue after two probes. -/
theorem C9_witness :
    ∃ (qid : Nat) (k : ℕ),
      find_prev_queue bothBook.instr bothBook.queues 2 .BID 2
        = some qid ∧
      1 ≤ k ∧ k ≤ 2 ∧
      alookup bothBook.queues
        (2 + (k : ℚ) * Side.smul .BID bothBook.instr.tick_size) = some qid ∧
      ∀ j : ℕ, 1 ≤ j → j < k →
        alookup bothBook.queues
          (2 + (j : ℚ) * Side.smul .BID bothBook.instr.tick_size) = none :=
  C9_find_prev_queue_terminates bothBook .BID 2 1 0 bothQb (by decide)
    (by decide) (by decide) (by decide) (by decide) (by decide)

/-- C1: refuted on the code.  In the marketableFullFillRun scenario the
resting order 0 becomes fully filled (remaining 0) inside on_marketable
and is removed from its queue, yet it is still present in order_map when
on_marketable returns: the source line self.order_map[order.order_id]
merely subscripts the dict instead of deleting the key. -/
theorem C1_filled_order_left_in_order_map :
    (marketableFullFillRun.toOption.map (fun b =>
      (b.order_map.contains 0,
       (alookup b.orders 0).map OrderRec.remaining,
       (alookup b.qheap 0).map QueueRec.ohead)))
    = some (true, some 0, some none) := by decide

/-- C2: refuted on the code.  After the same on_marketable return, order
0 is in order_map, its queue reference is queue 0, but the ohead…otail
chain of queue 0 is empty, so the order does not appear exactly once in
its queue's chain (spec invariant 3 fails). -/
theorem C2_order_map_chain_invariant_fails :
    (marketableFullFillRun.toOption.map (fun b =>
      (b.order_map.contains 0,
       (alookup b.orders 0).bind OrderRec.queue,
       (alookup b.qheap 0).map (fun q => chainFrom b q.ohead 10))))
    = some (true, some 0, some []) := by decide

/-- C3: refuted on the code.  In the cancelPartialRun scenario (rest BID
2@5, fill 1 via on_market, then on_cancel the order while 1 unit still
rests), the returned book has best_volumes[BID] = -1 while the queues of
the BID side sum to 0: on_cancel subtracts the original quantity 2
although Queue.remove subtracts only the resting remainder 1, so the
claimed equality best_volumes[s] = Σ q.volume fails after on_cancel of a
partially filled order. -/
theorem C3_cancel_partial_fill_counterexample :
    (cancelPartialRun.toOption.map (fun b =>
      (b.bv_bid, sideVolume b .BID))) = some (-1, 0)
    ∧ (-1 : ℚ) ≠ 0 := by
  constructor
  · decide
  · decide

/-- C4: refuted on the code.  In the amendMarketableRun scenario the
amended order 1 is removed from its queue chain and a fresh marketable
order is submitted with its side and owner, but order 1 is never deleted
from order_map: on_amend's marketable branch contains no del. -/
theorem C4_amended_order_left_in_order_map :
    (amendMarketableRun.toOption.map (fun b =>
      (b.order_map.contains 1,
       (alookup b.qheap 1).map QueueRec.ohead,
       (alookup b.orders 1).map OrderRec.remaining)))
    = some (true, some none, some 1) := by decide

/-- C10: refuted on the code.  Queue.fill's "New Fill" notification is
passed fill.order_id as the client_id argument instead of the order's
owner; the "Partial fill" notification does go to the owner. -/
theorem C10_new_fill_not_sent_to_owner :
    (fillPartialRun.toOption.map (fun b =>
      b.notifs.map (fun n => (n.status, n.recipient))))
    = some [("New order", .client "alice"),
            ("New Fill", .orderKey 0),
            ("Partial fill", .client "alice")]
    ∧ Recipient.orderKey 0 ≠ .client "alice" := by
  constructor
  · decide
  · decide

/-- C5: on_market with quantity exceeding best_volumes[side] returns
without exception, appends exactly one "rejected" notification to the
submitting client whose reason carries the available liquidity, and
leaves every other component of the book unchanged. -/
theorem C5_on_market_insufficient_liquidity_rejects (b : Book)
    (side : Side) (quantity : ℚ) (client_id : String) (fuel : ℕ)
    (h : quantity > b.bestVol side) :
    on_market b side quantity client_id fuel =
      .ok (pushNotif b
        { recipient := .client client_id, status := "rejected",
          side := some side, quantity := some quantity,
          reason := some (.exceedsAvailable quantity (b.bestVol side)) }) := by
  unfold on_market reject_market
  simp [h]
  rfl

/-- Witness for C5 at a concrete input. -/
theorem C5_witness :
    (1 : ℚ) > emptyBook.bestVol .BID ∧
    on_market emptyBook .BID 1 "x" 10 =
      .ok (pushNotif emptyBook
        { recipient := .client "x", status := "rejected",
          side := some Side.BID, quantity := some 1,
          reason := some (.exceedsAvailable 1 (emptyBook.bestVol .BID)) }) :=
  ⟨by decide, C5_on_market_insufficient_liquidity_rejects emptyBook .BID 1
    "x" 10 (by decide)⟩

/-- C6: on_cancel and on_amend on an unknown order id raise
OrderbookException from _get_order before any mutation: the book carried
by the exception is exactly the input book (no queue, index, volume,
extremum or mid field changed, no notification appended). -/
theorem C6_unknown_order_raises_without_mutation (b : Book) (oid : Nat)
    (quantity price : ℚ) (fuel : ℕ)
    (h : b.order_map.contains oid = false) :
    on_cancel b oid = .error (.orderbookExn, b) ∧
    on_amend b oid quantity price fuel = .error (.orderbookExn, b) := by
  refine ⟨?_, ?_⟩
  · unfold on_cancel get_order
    rw [h]
    rfl
  · unfold on_amend get_order
    rw [h]
    rfl

/-- Witness for C6 at a concrete input. -/
theorem C6_witness :
    emptyBook.order_map.contains 7 = false ∧
    on_cancel emptyBook 7 = .error (.orderbookExn, emptyBook) ∧
    on_amend emptyBook 7 1 2 10 = .error (.orderbookExn, emptyBook) :=
  ⟨by decide,
   (C6_unknown_order_raises_without_mutation emptyBook 7 1 2 10 (by decide)).1,
   (C6_unknown_order_raises_without_mutation emptyBook 7 1 2 10 (by decide)).2⟩

end LOB
